import Mathlib

/-!
# Crime Network `App.jsx`: the client-side data layer

A shallow embedding of the data layer of `src/App.jsx` (the entity store, the
session gate, the article filter, the JSON import and export and the
`localStorage` bridge) together with the properties of it that the
specification states.

Conventions of the embedding.

* JavaScript values are the type `JSVal`.  Numbers are integers: the embedding is
  exact on the integers that JavaScript holds exactly and prints in full (`Date.now()`,
  ids, the integers of a JSON document up to `2^53`); the data of the program has no
  other numbers.  Strings are sequences of Unicode scalar values (no lone
  surrogates).
* An object is the list of its fields in insertion order.  Reading a field takes
  the last entry of that name and writing replaces every entry of that name, so
  a list with a repeated key denotes the object the successive assignments
  build.
* A React state update `setX(f)` is applied on the spot; `alert` appends its
  message to the list of messages an operation returns; the answer of `confirm`
  and the readings of the clock are arguments.
* A thrown `TypeError` is the `error` case of `Except`.
* The case mapping of `toLowerCase` is an argument of the filter; `JSON.stringify`,
  `JSON.parse`, `trim` and `includes` are written out after ECMA-262.
-/

namespace CrimeNetwork

/-! ## JavaScript values -/

/-- JavaScript values: the JSON values and `undefined`. -/
inductive JSVal where
  | undefined
  | null
  | bool (b : Bool)
  | num (n : Int)
  | str (s : String)
  | arr (xs : List JSVal)
  | obj (fs : List (String × JSVal))

/-- The errors a JavaScript expression of the program can throw. -/
inductive JSError where
  | typeError
  | syntaxError
  deriving DecidableEq, Repr

deriving instance DecidableEq for Except

namespace JSVal

instance : Inhabited JSVal := ⟨JSVal.undefined⟩

mutual
/-- Decidable structural equality of values. -/
def decEq : (a b : JSVal) → Decidable (a = b)
  | .undefined, .undefined => isTrue rfl
  | .null, .null => isTrue rfl
  | .bool a, .bool b =>
    if h : a = b then isTrue (by rw [h]) else isFalse (by intro e; cases e; exact h rfl)
  | .num a, .num b =>
    if h : a = b then isTrue (by rw [h]) else isFalse (by intro e; cases e; exact h rfl)
  | .str a, .str b =>
    if h : a = b then isTrue (by rw [h]) else isFalse (by intro e; cases e; exact h rfl)
  | .arr xs, .arr ys =>
    match decEqList xs ys with
    | isTrue h => isTrue (by rw [h])
    | isFalse h => isFalse (by intro e; cases e; exact h rfl)
  | .obj fs, .obj gs =>
    match decEqFields fs gs with
    | isTrue h => isTrue (by rw [h])
    | isFalse h => isFalse (by intro e; cases e; exact h rfl)
  | .undefined, .null | .undefined, .bool _ | .undefined, .num _ | .undefined, .str _
  | .undefined, .arr _ | .undefined, .obj _ => isFalse (by intro e; cases e)
  | .null, .undefined | .null, .bool _ | .null, .num _ | .null, .str _
  | .null, .arr _ | .null, .obj _ => isFalse (by intro e; cases e)
  | .bool _, .undefined | .bool _, .null | .bool _, .num _ | .bool _, .str _
  | .bool _, .arr _ | .bool _, .obj _ => isFalse (by intro e; cases e)
  | .num _, .undefined | .num _, .null | .num _, .bool _ | .num _, .str _
  | .num _, .arr _ | .num _, .obj _ => isFalse (by intro e; cases e)
  | .str _, .undefined | .str _, .null | .str _, .bool _ | .str _, .num _
  | .str _, .arr _ | .str _, .obj _ => isFalse (by intro e; cases e)
  | .arr _, .undefined | .arr _, .null | .arr _, .bool _ | .arr _, .num _
  | .arr _, .str _ | .arr _, .obj _ => isFalse (by intro e; cases e)
  | .obj _, .undefined | .obj _, .null | .obj _, .bool _ | .obj _, .num _
  | .obj _, .str _ | .obj _, .arr _ => isFalse (by intro e; cases e)
/-- Decidable equality of lists of values. -/
def decEqList : (as bs : List JSVal) → Decidable (as = bs)
  | [], [] => isTrue rfl
  | [], _ :: _ => isFalse (by intro e; cases e)
  | _ :: _, [] => isFalse (by intro e; cases e)
  | a :: as, b :: bs =>
    match decEq a b, decEqList as bs with
    | isTrue h, isTrue t => isTrue (by rw [h, t])
    | isFalse h, _ => isFalse (by intro e; cases e; exact h rfl)
    | _, isFalse t => isFalse (by intro e; cases e; exact t rfl)
/-- Decidable equality of field lists. -/
def decEqFields : (as bs : List (String × JSVal)) → Decidable (as = bs)
  | [], [] => isTrue rfl
  | [], _ :: _ => isFalse (by intro e; cases e)
  | _ :: _, [] => isFalse (by intro e; cases e)
  | (k, a) :: as, (l, b) :: bs =>
    if hk : k = l then
      match decEq a b, decEqFields as bs with
      | isTrue h, isTrue t => isTrue (by rw [hk, h, t])
      | isFalse h, _ => isFalse (by intro e; cases e; exact h rfl)
      | _, isFalse t => isFalse (by intro e; cases e; exact t rfl)
    else isFalse (by intro e; cases e; exact hk rfl)
end

instance : DecidableEq JSVal := decEq

/-- ECMAScript `ToBoolean`: `undefined`, `null`, `false`, `0` and `""` are falsy. -/
def truthy : JSVal → Bool
  | .undefined => false
  | .null => false
  | .bool b => b
  | .num n => n != 0
  | .str s => s != ""
  | .arr _ => true
  | .obj _ => true

/-- The expression `a || b`. -/
def or (a b : JSVal) : JSVal := if a.truthy then a else b

/-- The comparison `v === s` against a string `s`. -/
def strictEqStr (v : JSVal) (s : String) : Bool :=
  match v with
  | .str t => t == s
  | _ => false

end JSVal

open JSVal

/-- A field list read as an object: the value of field `k` (the last entry of that
name), `undefined` when there is none. -/
def getField (fs : List (String × JSVal)) (k : String) : JSVal :=
  fs.foldl (fun acc kv => if kv.1 = k then kv.2 else acc) JSVal.undefined

/-- Whether the object has an own field `k`. -/
def hasField (fs : List (String × JSVal)) (k : String) : Bool :=
  fs.any (fun kv => kv.1 == k)

/-- The assignment `o[k] = v` on an object: an existing field keeps its place and
takes the new value, a new field goes last. -/
def setField (fs : List (String × JSVal)) (k : String) (v : JSVal) : List (String × JSVal) :=
  if hasField fs k then fs.map (fun kv => if kv.1 = k then (k, v) else kv) else fs ++ [(k, v)]

/-- The property read `v.k` for a property name `k` that no built-in prototype
defines and that is neither `length` nor an index (the program reads `id`,
`title`, `category`, `excerpt`, `content`, `name`, `role`, `avatar`, `banner`, `bio`,
`contact`, `articles` and `staff`): a `TypeError` on `undefined` and `null`, the
field of an object, `undefined` on every other value. -/
def getProp (v : JSVal) (k : String) : Except JSError JSVal :=
  match v with
  | .undefined => .error .typeError
  | .null => .error .typeError
  | .obj fs => .ok (getField fs k)
  | _ => .ok .undefined

/-- The own enumerable properties that `...v` copies inside an object literal. -/
def ownEntries : JSVal → List (String × JSVal)
  | .obj fs => fs
  | .arr xs => xs.enum.map (fun p => (toString p.1, p.2))
  | .str s => s.data.enum.map (fun p => (toString p.1, JSVal.str (String.singleton p.2)))
  | _ => []

/-- The object literal `{ ...a, ...b }`. -/
def objectSpread (a b : JSVal) : JSVal :=
  .obj ((ownEntries a ++ ownEntries b).foldl (fun acc kv => setField acc kv.1 kv.2) [])

/-- The elements that `...v` yields inside an array literal: those of an array, the
characters of a string, a `TypeError` otherwise. -/
def spreadIterable : JSVal → Except JSError (List JSVal)
  | .arr xs => .ok xs
  | .str s => .ok (s.data.map (fun c => JSVal.str (String.singleton c)))
  | _ => .error .typeError

/-- The receiver of `s.map(...)` and `s.filter(...)`: only an array has these
methods, on every other value the call throws. -/
def asArray : JSVal → Except JSError (List JSVal)
  | .arr xs => .ok xs
  | _ => .error .typeError

/-- The method `Array.prototype.map` with a callback that may throw. -/
def mapExcept {α β : Type} (f : α → Except JSError β) : List α → Except JSError (List β)
  | [] => .ok []
  | a :: as =>
    match f a with
    | .error e => .error e
    | .ok b =>
      match mapExcept f as with
      | .error e => .error e
      | .ok bs => .ok (b :: bs)

/-- The method `Array.prototype.filter` with a callback that may throw. -/
def filterExcept {α : Type} (f : α → Except JSError Bool) : List α → Except JSError (List α)
  | [] => .ok []
  | a :: as =>
    match f a with
    | .error e => .error e
    | .ok b =>
      match filterExcept f as with
      | .error e => .error e
      | .ok bs => .ok (if b then a :: bs else bs)

/-! ## Numbers and strings -/

/-- The decimal digit `d` as a character. -/
def digitChar (d : Nat) : Char := Char.ofNat (48 + d)

/-- The decimal digits of `n`, most significant first, put in front of `acc`; the
first argument bounds the number of digits. -/
def natCharsAux : Nat → Nat → List Char → List Char
  | 0, _, acc => acc
  | fuel + 1, n, acc =>
    if n < 10 then digitChar n :: acc
    else natCharsAux fuel (n / 10) (digitChar (n % 10) :: acc)

/-- The decimal numeral of a natural number. -/
def natChars (n : Nat) : List Char := natCharsAux (n + 1) n []

/-- The decimal numeral of an integer. -/
def intChars : Int → List Char
  | .ofNat n => natChars n
  | .negSucc n => '-' :: natChars (n + 1)

/-- The conversion of an integral number to a string (ECMAScript `Number::toString`),
as a template literal applies it. -/
def numberToString (n : Int) : String := String.mk (intChars n)

/-- The white space and line terminators that `String.prototype.trim` strips. -/
def isTrimSpace (c : Char) : Bool :=
  c.val == 0x09 || c.val == 0x0A || c.val == 0x0B || c.val == 0x0C || c.val == 0x0D
  || c.val == 0x20 || c.val == 0xA0 || c.val == 0x1680
  || (0x2000 ≤ c.val && c.val ≤ 0x200A)
  || c.val == 0x2028 || c.val == 0x2029 || c.val == 0x202F || c.val == 0x205F
  || c.val == 0x3000 || c.val == 0xFEFF

/-- The method `String.prototype.trim`. -/
def trim (s : String) : String :=
  String.mk ((s.data.dropWhile isTrimSpace).reverse.dropWhile isTrimSpace).reverse

/-- Whether `q` is the beginning of `s`. -/
def startsWith : List Char → List Char → Bool
  | _, [] => true
  | [], _ :: _ => false
  | c :: s, d :: q => c == d && startsWith s q

/-- Whether `q` occurs in `s` as a contiguous run. -/
def includesChars : List Char → List Char → Bool
  | [], q => startsWith [] q
  | c :: s, q => startsWith (c :: s) q || includesChars s q

/-- The method `String.prototype.includes`. -/
def includes (s q : String) : Bool := includesChars s.data q.data

/-- The method `String.prototype.toLowerCase` on the ASCII letters, the other
characters kept. The filter below takes the case mapping as an argument, so what
is proved of it holds for the full Unicode mapping too. -/
def asciiLower (s : String) : String := String.mk (s.data.map Char.toLower)

/-! ## JSON

`JSON.stringify` and `JSON.parse` after ECMA-262 (`SerializeJSONProperty`,
`QuoteJSONString` and the JSON grammar) on the values of `JSVal`.  A number
literal with a fraction or an exponent and an escape that denotes a lone surrogate
have no value in `JSVal`: such a text is outside the embedding, and the parser
gives no result on it, as it does on a text that is no JSON.  An object keeps its
fields in the order of the text; JavaScript moves keys that are array indices
to the front, which no property below observes. -/

/-- The hexadecimal digit `d`, in lower case. -/
def hexChar (d : Nat) : Char := if d < 10 then Char.ofNat (48 + d) else Char.ofNat (87 + d)

/-- The text `QuoteJSONString` writes for one character. -/
def quoteChar (c : Char) : List Char :=
  if c = '"' then ['\\', '"']
  else if c = '\\' then ['\\', '\\']
  else if c = '\x08' then ['\\', 'b']
  else if c = '\x0c' then ['\\', 'f']
  else if c = '\n' then ['\\', 'n']
  else if c = '\r' then ['\\', 'r']
  else if c = '\t' then ['\\', 't']
  else if c.toNat < 32 then ['\\', 'u', '0', '0', hexChar (c.toNat / 16), hexChar (c.toNat % 16)]
  else [c]

/-- The escaped characters of a string and the closing quote. -/
def quoteBody : List Char → List Char
  | [] => ['"']
  | c :: cs => quoteChar c ++ quoteBody cs

/-- The operation `QuoteJSONString`. -/
def quote (s : String) : List Char := '"' :: quoteBody s.data

/-- As many spaces as asked. -/
def spaces (n : Nat) : List Char := List.replicate n ' '

/-- The texts `parts` with `sep` between them. -/
def joinWith (sep : List Char) : List (List Char) → List Char
  | [] => []
  | [a] => a
  | a :: b :: rest => a ++ sep ++ joinWith sep (b :: rest)

/-- The text of an array or object from the texts of its members: `gap` is the
number of spaces of one indentation step (`0` for the compact form) and `ind` the
indentation of the enclosing line. -/
def bracket (lb rb : Char) (gap ind : Nat) (parts : List (List Char)) : List Char :=
  if parts.isEmpty then [lb, rb]
  else if gap = 0 then lb :: (joinWith [','] parts ++ [rb])
  else
    lb :: '\n' :: (spaces (ind + gap)
      ++ joinWith (',' :: '\n' :: spaces (ind + gap)) parts
      ++ '\n' :: (spaces ind ++ [rb]))

mutual
/-- The operation `SerializeJSONProperty`: `none` stands for the result `undefined`. -/
def serialize (gap : Nat) : Nat → JSVal → Option (List Char)
  | _, .undefined => none
  | _, .null => some ['n', 'u', 'l', 'l']
  | _, .bool true => some ['t', 'r', 'u', 'e']
  | _, .bool false => some ['f', 'a', 'l', 's', 'e']
  | _, .num n => some (intChars n)
  | _, .str s => some (quote s)
  | ind, .arr xs => some (bracket '[' ']' gap ind (serializeElems gap (ind + gap) xs))
  | ind, .obj fs => some (bracket '{' '}' gap ind (serializeMembers gap (ind + gap) fs))
/-- The texts of the elements of an array: `undefined` is written `null`. -/
def serializeElems (gap : Nat) : Nat → List JSVal → List (List Char)
  | _, [] => []
  | ind, x :: xs =>
    (match serialize gap ind x with
      | some t => t
      | none => ['n', 'u', 'l', 'l']) :: serializeElems gap ind xs
/-- The texts of the members of an object: a member whose value is `undefined` is
left out. -/
def serializeMembers (gap : Nat) : Nat → List (String × JSVal) → List (List Char)
  | _, [] => []
  | ind, (k, v) :: fs =>
    match serialize gap ind v with
    | some t => (quote k ++ ':' :: (if gap = 0 then t else ' ' :: t)) :: serializeMembers gap ind fs
    | none => serializeMembers gap ind fs
end

/-- The call `JSON.stringify(v, null, space)` for a number `space`. -/
def JSON.stringifyPretty (v : JSVal) (space : Nat) : Option String :=
  (serialize (min space 10) 0 v).map String.mk

/-- JSON white space. -/
def isWs (c : Char) : Bool := c = ' ' || c = '\t' || c = '\n' || c = '\r'

/-- The input after its leading white space. -/
def skipWs : List Char → List Char
  | [] => []
  | c :: cs => if isWs c then skipWs cs else c :: cs

/-- The value of a hexadecimal digit. -/
def hexVal (c : Char) : Option Nat :=
  if '0' ≤ c ∧ c ≤ '9' then some (c.toNat - 48)
  else if 'a' ≤ c ∧ c ≤ 'f' then some (c.toNat - 87)
  else if 'A' ≤ c ∧ c ≤ 'F' then some (c.toNat - 55)
  else none

/-- The code unit that four hexadecimal digits denote. -/
def hex4 (a b c d : Char) : Option Nat :=
  match hexVal a, hexVal b, hexVal c, hexVal d with
  | some x, some y, some z, some w => some (((x * 16 + y) * 16 + z) * 16 + w)
  | _, _, _, _ => none

/-- One step of reading a JSON string after its opening quote: `some (none, rest)` at
the closing quote, `some (some c, rest)` for a character `c`, plain or escaped, and
`none` where the grammar allows neither. -/
def stringStep : List Char → Option (Option Char × List Char)
  | [] => none
  | c :: rest =>
    if c = '"' then some (none, rest)
    else if c = '\\' then
      match rest with
      | [] => none
      | e :: r =>
        if e = '"' then some (some '"', r)
        else if e = '\\' then some (some '\\', r)
        else if e = '/' then some (some '/', r)
        else if e = 'b' then some (some '\x08', r)
        else if e = 'f' then some (some '\x0c', r)
        else if e = 'n' then some (some '\n', r)
        else if e = 'r' then some (some '\r', r)
        else if e = 't' then some (some '\t', r)
        else if e = 'u' then
          match r with
          | a :: b :: c :: d :: r1 =>
            match hex4 a b c d with
            | none => none
            | some u =>
              if 0xD800 ≤ u ∧ u < 0xDC00 then
                match r1 with
                | b1 :: u1 :: a2 :: b2 :: c2 :: d2 :: r2 =>
                  if b1 = '\\' ∧ u1 = 'u' then
                    match hex4 a2 b2 c2 d2 with
                    | none => none
                    | some l =>
                      if 0xDC00 ≤ l ∧ l < 0xE000 then
                        some (some (Char.ofNat (0x10000 + (u - 0xD800) * 0x400 + (l - 0xDC00))), r2)
                      else none
                  else none
                | _ => none
              else if 0xDC00 ≤ u ∧ u < 0xE000 then none
              else some (some (Char.ofNat u), r1)
          | _ => none
        else none
    else if c.toNat < 32 then none
    else some (some c, rest)

/-- The characters of a JSON string after its opening quote, up to the closing
quote, and the rest of the input; the first argument bounds the number of steps. -/
def parseStringSteps : Nat → List Char → Option (List Char × List Char)
  | 0, _ => none
  | n + 1, cs =>
    match stringStep cs with
    | none => none
    | some (none, rest) => some ([], rest)
    | some (some c, rest) => (parseStringSteps n rest).map (fun p => (c :: p.1, p.2))

/-- A JSON string after its opening quote. Every step takes a character of the
input, so its length bounds the number of steps. -/
def parseStringBody (cs : List Char) : Option (List Char × List Char) :=
  parseStringSteps cs.length cs

/-- The value of a decimal digit. -/
def digitVal (c : Char) : Nat := c.toNat - 48

/-- The number that the leading digits of the input continue from `acc`, and the
rest of the input. -/
def parseDigits : List Char → Nat → Nat × List Char
  | [], acc => (acc, [])
  | c :: cs, acc => if c.isDigit then parseDigits cs (acc * 10 + digitVal c) else (acc, c :: cs)

/-- The integer part of a JSON number: `0`, or a digit other than `0` and more
digits. -/
def parseNat : List Char → Option (Nat × List Char)
  | [] => none
  | c :: rest =>
    if c = '0' then some (0, rest)
    else if c.isDigit then some (parseDigits rest (digitVal c))
    else none

/-- Whether a number may end in front of this input: no digit follows, and no
fraction or exponent. -/
def numberEnds : List Char → Bool
  | [] => true
  | c :: _ => !(c.isDigit || c = '.' || c = 'e' || c = 'E')

/-- A JSON number. -/
def parseNumber : List Char → Option (JSVal × List Char)
  | [] => none
  | c :: rest =>
    if c = '-' then
      match parseNat rest with
      | some (n, r) => if numberEnds r then some (.num (-(n : Int)), r) else none
      | none => none
    else
      match parseNat (c :: rest) with
      | some (n, r) => if numberEnds r then some (.num (n : Int), r) else none
      | none => none

/-- The elements of an array after the first white space, up to the closing
bracket; `pv` reads one value. -/
def parseElems (pv : List Char → Option (JSVal × List Char)) :
    Nat → List Char → Option (List JSVal × List Char)
  | 0, _ => none
  | n + 1, cs =>
    match pv cs with
    | none => none
    | some (v, rest) =>
      match skipWs rest with
      | [] => none
      | d :: r =>
        if d = ',' then (parseElems pv n r).map (fun p => (v :: p.1, p.2))
        else if d = ']' then some ([v], r)
        else none

/-- The members of an object, up to the closing brace; `pv` reads one value. -/
def parseMembers (pv : List Char → Option (JSVal × List Char)) :
    Nat → List Char → Option (List (String × JSVal) × List Char)
  | 0, _ => none
  | n + 1, cs =>
    match skipWs cs with
    | [] => none
    | q :: r0 =>
      if q = '"' then
        match parseStringBody r0 with
        | none => none
        | some (k, r1) =>
          match skipWs r1 with
          | [] => none
          | colon :: r2 =>
            if colon = ':' then
              match pv r2 with
              | none => none
              | some (v, r3) =>
                match skipWs r3 with
                | [] => none
                | d :: r4 =>
                  if d = ',' then
                    (parseMembers pv n r4).map (fun p => ((String.mk k, v) :: p.1, p.2))
                  else if d = '}' then some ([(String.mk k, v)], r4)
                  else none
            else none
      else none

/-- A JSON value, white space before it allowed, and the rest of the input. The
first argument bounds the nesting depth and the number of members of one array or
object. -/
def parseValue : Nat → List Char → Option (JSVal × List Char)
  | 0, _ => none
  | fuel + 1, cs =>
    match skipWs cs with
    | [] => none
    | c :: rest =>
      if c = 'n' then
        if startsWith rest ['u', 'l', 'l'] then some (.null, rest.drop 3) else none
      else if c = 't' then
        if startsWith rest ['r', 'u', 'e'] then some (.bool true, rest.drop 3) else none
      else if c = 'f' then
        if startsWith rest ['a', 'l', 's', 'e'] then some (.bool false, rest.drop 4) else none
      else if c = '"' then
        (parseStringBody rest).map (fun p => (.str (String.mk p.1), p.2))
      else if c = '[' then
        match skipWs rest with
        | [] => none
        | d :: r =>
          if d = ']' then some (.arr [], r)
          else (parseElems (parseValue fuel) fuel (d :: r)).map (fun p => (.arr p.1, p.2))
      else if c = '{' then
        match skipWs rest with
        | [] => none
        | d :: r =>
          if d = '}' then some (.obj [], r)
          else
            (parseMembers (parseValue fuel) fuel (d :: r)).map
              (fun p => (.obj (p.1.foldl (fun acc kv => setField acc kv.1 kv.2) []), p.2))
      else parseNumber (c :: rest)

/-- The call `JSON.parse(text)`: `none` stands for the `SyntaxError` it throws (and is
also the result on a text outside the embedding, see above). -/
def JSON.parse (text : String) : Option JSVal :=
  match parseValue (text.length + 1) text.data with
  | some (v, rest) => if (skipWs rest).isEmpty then some v else none
  | none => none

mutual
/-- The values `JSON.stringify` writes in full, the JSON values: `undefined` occurs
nowhere in them and the keys of every object are pairwise distinct (as the keys of
a JavaScript object are). -/
def JSVal.isJSON : JSVal → Bool
  | .undefined => false
  | .null => true
  | .bool _ => true
  | .num _ => true
  | .str _ => true
  | .arr xs => allJSON xs
  | .obj fs => fieldsJSON fs && decide ((fs.map Prod.fst).Nodup)
/-- A list of JSON values. -/
def allJSON : List JSVal → Bool
  | [] => true
  | x :: xs => x.isJSON && allJSON xs
/-- Fields whose values are JSON values. -/
def fieldsJSON : List (String × JSVal) → Bool
  | [] => true
  | (_, v) :: fs => v.isJSON && fieldsJSON fs
end

mutual
/-- The number of values in a value, itself included. -/
def JSVal.size : JSVal → Nat
  | .arr xs => 1 + sizeList xs
  | .obj fs => 1 + sizeFields fs
  | _ => 1
/-- The number of values in and below the elements of a list. -/
def sizeList : List JSVal → Nat
  | [] => 0
  | x :: xs => x.size + sizeList xs
/-- The number of values in and below the fields of an object. -/
def sizeFields : List (String × JSVal) → Nat
  | [] => 0
  | (_, v) :: fs => v.size + sizeFields fs
end

/-- A text of JSON white space only. -/
def AllWs (w : List Char) : Prop := ∀ c ∈ w, isWs c = true

/-- The sum of the lengths of the texts `parts`. -/
def totalLength (parts : List (List Char)) : Nat := (parts.map List.length).sum

/-! ## The `localStorage` bridge -/

/-- The `localStorage` object: its entries, and which writes it takes (a write it
does not take throws, as when the quota is exceeded). -/
structure Storage where
  items : List (String × String)
  accepts : String → String → Bool

/-- The method `localStorage.getItem`: `none` stands for `null`. -/
def Storage.getItem (s : Storage) (key : String) : Option String :=
  (s.items.find? (fun kv => kv.1 == key)).map (fun kv => kv.2)

/-- The function `loadFromLocal(key, fallback)`. -/
def loadFromLocal (s : Storage) (key : String) (fallback : JSVal) : JSVal :=
  match s.getItem key with
  | none => fallback
  | some raw =>
    if raw = "" then fallback
    else
      match JSON.parse raw with
      | some v => v
      | none => fallback

/-! ## The application state -/

/-- The state of `App` that the data layer reads and writes. -/
structure State where
  route : String
  articles : JSVal
  staff : JSVal
  user : JSVal
  deriving DecidableEq

/-- What an operation leaves behind: the new state and the messages shown with
`alert`, in order. -/
abbrev Outcome := State × List String

/-- The constant `CATEGORIES`. -/
def CATEGORIES : List String :=
  ["Security Breaches", "Real Life Crimes", "Real Life Gangs", "Investigations",
   "Threat Intelligence"]

/-- The constant `SAMPLE_ARTICLES`: the elements of the array. -/
def SAMPLE_ARTICLES : List JSVal :=
  [ .obj [("id", .str "breach-2025-01"),
          ("title", .str "Major Database Breach: ACME Corp (Jan 2025)"),
          ("category", .str "Security Breaches"),
          ("excerpt", .str "Unauthorized access to customer records through exposed API key."),
          ("content", .str "**Summary:** ACME Corp suffered a data breach after an expired token allowed unauthorized access.\n\n**Impact:** 2.1M records.\n\n**Mitigation:** Rotate keys, implement short TTLs, and monitor outgoing traffic."),
          ("date", .str "2025-01-10")],
    .obj [("id", .str "crime-2024-07"),
          ("title", .str "Organized Robbery Ring Dismantled"),
          ("category", .str "Real Life Crimes"),
          ("excerpt", .str "Investigation uncovered interstate coordination and money laundering."),
          ("content", .str "Investigation revealed a 6-person ring operating across three states. Key evidence included surveillance logs and cryptocurrency traces."),
          ("date", .str "2024-07-22")],
    .obj [("id", .str "gang-101"),
          ("title", .str "Understanding the Street Gang Structure"),
          ("category", .str "Real Life Gangs"),
          ("excerpt", .str "Ranks, roles, and common behaviors — an educational overview."),
          ("content", .str "This article covers common hierarchical structures found in many gangs and how law enforcement classifies ranks. Use for research and awareness."),
          ("date", .str "2023-11-05")]]

/-- The constant `SAMPLE_STAFF`: the elements of the array. -/
def SAMPLE_STAFF : List JSVal :=
  [ .obj [("id", .str "staff-1"),
          ("name", .str "Raven Steele"),
          ("role", .str "Editor-in-Chief"),
          ("avatar", .str "https://i.pravatar.cc/150?img=12"),
          ("banner", .str "https://picsum.photos/seed/raven/1200/300"),
          ("bio", .str "Leads investigations and longform journalism for Crime Network."),
          ("contact", .str "raven@crimenet.local")],
    .obj [("id", .str "staff-2"),
          ("name", .str "Kai Morales"),
          ("role", .str "Lead Security Researcher"),
          ("avatar", .str "https://i.pravatar.cc/150?img=24"),
          ("banner", .str "https://picsum.photos/seed/kai/1200/300"),
          ("bio", .str "Focus on vulnerability research and VPN privacy engineering."),
          ("contact", .str "kai@crimenet.local")]]

/-- The state `App` starts in when `localStorage` is empty: the seed data, nobody
logged in, the home page. -/
def initialState : State :=
  { route := "home", articles := .arr SAMPLE_ARTICLES, staff := .arr SAMPLE_STAFF,
    user := .null }

/-- A parameter with the default `{}`: the default stands in for `undefined`. -/
def defaultEmpty : JSVal → JSVal
  | .undefined => .obj []
  | p => p

/-! ## The article filter -/

/-- The callback of the filter in `filtered`, for one article `a`; `q` is the
trimmed, lowercased query. -/
def filterMatch (lower : String → String) (selectedCategory q : String) (a : JSVal) :
    Except JSError Bool := do
  let catMatch ←
    if selectedCategory == "All" then pure true
    else do
      let c ← getProp a "category"
      pure (c.strictEqStr selectedCategory)
  let field (k : String) : Except JSError Bool := do
    match ← getProp a k with
    | .str t => pure (includes (lower t) q)
    | _ => throw JSError.typeError
  let queryMatch ←
    if q == "" then pure true
    else do
      if ← field "title" then pure true
      else if ← field "excerpt" then pure true
      else field "content"
  pure (catMatch && queryMatch)

/-- The memoised value `filtered`: the visible articles. `lower` is
`String.prototype.toLowerCase`. -/
def filtered (lower : String → String) (articles : JSVal) (selectedCategory query : String) :
    Except JSError (List JSVal) := do
  let xs ← asArray articles
  filterExcept (filterMatch lower selectedCategory (lower (trim query))) xs

/-! ## CRUD for articles -/

/-- The callback `(a) => (a.id === id ? { ...a, ...patch } : a)` of `updateArticle` and
`updateStaff`. -/
def mergeIfId (id : String) (patch : JSVal) (a : JSVal) : Except JSError JSVal := do
  let aid ← getProp a "id"
  pure (if aid.strictEqStr id then objectSpread a patch else a)

/-- The callback `(a) => a.id !== id` of `removeArticle` and `removeStaff`. -/
def keepUnlessId (id : String) (a : JSVal) : Except JSError Bool := do
  let aid ← getProp a "id"
  pure (!aid.strictEqStr id)

/-- The function `createArticle(patch = {})`; `now` is `Date.now()` and `today` is
`new Date().toISOString().slice(0, 10)`. -/
def createArticle (st : State) (now : Int) (today : String) (patchArg : JSVal) :
    Except JSError Outcome :=
  if !st.user.truthy then .ok (st, ["Login required to create article."])
  else do
    let patch := defaultEmpty patchArg
    let id := "art-" ++ numberToString now
    let title ← getProp patch "title"
    let category ← getProp patch "category"
    let excerpt ← getProp patch "excerpt"
    let content ← getProp patch "content"
    let newArt := JSVal.obj [
      ("id", .str id),
      ("title", title.or (.str "Untitled Article")),
      ("category", category.or (.str (CATEGORIES.head (by decide)))),
      ("excerpt", excerpt.or (.str "")),
      ("content", content.or (.str "")),
      ("date", .str today)]
    let s ← spreadIterable st.articles
    pure ({ st with articles := .arr (newArt :: s), route := "article:" ++ id }, [])

/-- The function `updateArticle(id, patch)`. -/
def updateArticle (st : State) (id : String) (patch : JSVal) : Except JSError Outcome :=
  if !st.user.truthy then .ok (st, ["Login required to edit article."])
  else do
    let s ← asArray st.articles
    let s' ← mapExcept (mergeIfId id patch) s
    pure ({ st with articles := .arr s' }, [])

/-- The function `removeArticle(id)`; `confirmed` is the answer of `confirm`. -/
def removeArticle (st : State) (confirmed : Bool) (id : String) : Except JSError Outcome :=
  if !st.user.truthy then .ok (st, ["Login required to delete article."])
  else if !confirmed then .ok (st, [])
  else do
    let s ← asArray st.articles
    let s' ← filterExcept (keepUnlessId id) s
    pure ({ st with articles := .arr s', route := "docs" }, [])

/-! ## CRUD for staff -/

/-- The function `createStaff(patch = {})`; `now` is `Date.now()`. -/
def createStaff (st : State) (now : Int) (patchArg : JSVal) : Except JSError Outcome :=
  if !st.user.truthy then .ok (st, ["Login required to add staff."])
  else do
    let patch := defaultEmpty patchArg
    let id := "staff-" ++ numberToString now
    let name ← getProp patch "name"
    let role ← getProp patch "role"
    let avatar ← getProp patch "avatar"
    let banner ← getProp patch "banner"
    let bio ← getProp patch "bio"
    let contact ← getProp patch "contact"
    let newStaff := JSVal.obj [
      ("id", .str id),
      ("name", name.or (.str "Unnamed")),
      ("role", role.or (.str "Contributor")),
      ("avatar", avatar.or (.str "https://i.pravatar.cc/150?img=50")),
      ("banner", banner.or (.str "https://picsum.photos/seed/staff/1200/300")),
      ("bio", bio.or (.str "")),
      ("contact", contact.or (.str ""))]
    let s ← spreadIterable st.staff
    pure ({ st with staff := .arr (newStaff :: s), route := "profile:" ++ id }, [])

/-- The function `updateStaff(id, patch)`. -/
def updateStaff (st : State) (id : String) (patch : JSVal) : Except JSError Outcome :=
  if !st.user.truthy then .ok (st, ["Login required to edit staff."])
  else do
    let s ← asArray st.staff
    let s' ← mapExcept (mergeIfId id patch) s
    pure ({ st with staff := .arr s' }, [])

/-- The function `removeStaff(id)`; `confirmed` is the answer of `confirm`. -/
def removeStaff (st : State) (confirmed : Bool) (id : String) : Except JSError Outcome :=
  if !st.user.truthy then .ok (st, ["Login required to remove staff."])
  else if !confirmed then .ok (st, [])
  else do
    let s ← asArray st.staff
    let s' ← filterExcept (keepUnlessId id) s
    pure ({ st with staff := .arr s', route := "staff" }, [])

/-! ## Authentication -/

/-- The function `login(username, password)`. -/
def login (st : State) (username password : String) : Outcome :=
  if username == "admin" && password == "password" then
    ({ st with user := .obj [("name", .str "Admin")], route := "home" }, ["Login successful"])
  else (st, ["Invalid credentials"])

/-- The function `logout()`. -/
def logout (st : State) : State := { st with user := .null, route := "home" }

/-! ## Import and export -/

/-- The function `downloadJSON(filename, data)`: the name and the text of the file
offered for download. -/
def downloadJSON (filename : String) (data : JSVal) : String × String :=
  (filename, match JSON.stringifyPretty data 2 with
    | some t => t
    | none => "undefined")

/-- The function `exportSite()`; `exportedAt` is `new Date().toISOString()`. -/
def exportSite (st : State) (exportedAt : String) : String × String :=
  downloadJSON "crimenetwork-export.json"
    (.obj [("articles", st.articles), ("staff", st.staff), ("exportedAt", .str exportedAt)])

/-- The function `importSite(file)`, from the moment the file has been read:
`content` is the text of the file (`e.target.result`). -/
def importSite (st : State) (content : String) : Outcome :=
  match JSON.parse content with
  | none => (st, ["Failed to import: invalid file"])
  | some parsed =>
    match getProp parsed "articles" with
    | .error _ => (st, ["Failed to import: invalid file"])
    | .ok a =>
      let st1 := if a.truthy then { st with articles := a } else st
      match getProp parsed "staff" with
      | .error _ => (st1, ["Failed to import: invalid file"])
      | .ok b =>
        let st2 := if b.truthy then { st1 with staff := b } else st1
        (st2, ["Import successful."])

/-! ## Notions the properties are stated with -/

/-- What one record of a collection becomes under `update(id, patch)` for a patch
object with the fields `pf`: a record with the id `id` takes every field of the
patch from the patch and keeps its other fields, a record with another id is kept
as it is. -/
def PatchedBy (id : String) (pf old new : List (String × JSVal)) : Prop :=
  (getField old "id" = .str id →
      ∀ k, getField new k = (if hasField pf k then getField pf k else getField old k)
        ∧ hasField new k = (hasField old k || hasField pf k))
  ∧ (getField old "id" ≠ .str id → new = old)

/-- Whether `q` is a substring of the text field `k` of a record, lowercased; a
field that holds no string has no substring. -/
def fieldContains (lower : String → String) (q : String) (fs : List (String × JSVal))
    (k : String) : Bool :=
  match getField fs k with
  | .str t => decide (q.data <:+: (lower t).data)
  | _ => false

/-- The filter as the specification words it: the category is the sentinel `All` or
the category of the article, and the trimmed, lowercased query is empty or a
substring of the lowercased title, excerpt or content. -/
def specMatches (lower : String → String) (category query : String)
    (fs : List (String × JSVal)) : Bool :=
  (category == "All" || getField fs "category" == JSVal.str category)
  && (lower (trim query) == ""
      || fieldContains lower (lower (trim query)) fs "title"
      || fieldContains lower (lower (trim query)) fs "excerpt"
      || fieldContains lower (lower (trim query)) fs "content")

/-- A record whose `title`, `excerpt` and `content` hold strings. -/
def hasTexts (fs : List (String × JSVal)) : Prop :=
  ∃ t e c, getField fs "title" = .str t ∧ getField fs "excerpt" = .str e
    ∧ getField fs "content" = .str c

/-- What `mergeIfId` returns on a record. -/
def patchRecord (id : String) (patch : JSVal) (fs : List (String × JSVal)) : JSVal :=
  if (getField fs "id").strictEqStr id then objectSpread (.obj fs) patch else .obj fs

/-- The state whose two collections are JSON values. -/
def State.holdsJSON (st : State) : Bool := st.articles.isJSON && st.staff.isJSON

/-- The value of `a.id`, `undefined` where the read throws. -/
def idOf (a : JSVal) : JSVal :=
  match getProp a "id" with
  | .ok v => v
  | .error _ => .undefined

/-- The ids of the elements of a collection, in order. -/
def collectionIds : JSVal → List JSVal
  | .arr xs => xs.map idOf
  | _ => []

/-- Successive calls of an operation, one for each reading of the clock, each on the
state the call before it left. -/
def runAll (op : State → Int → Except JSError Outcome) : State → List Int → Except JSError State
  | st, [] => .ok st
  | st, now :: rest =>
    match op st now with
    | .ok (st', _) => runAll op st' rest
    | .error e => .error e

/-! ## Lemmas on objects and arrays -/

theorem strictEqStr_eq_true_iff (v : JSVal) (s : String) :
    v.strictEqStr s = true ↔ v = .str s := by
  cases v <;> simp [JSVal.strictEqStr]

theorem strictEqStr_eq_false_iff (v : JSVal) (s : String) :
    v.strictEqStr s = false ↔ v ≠ .str s := by
  rw [Ne, ← strictEqStr_eq_true_iff]; simp

theorem getField_nil (k : String) : getField [] k = .undefined := rfl

theorem getField_append_singleton (fs : List (String × JSVal)) (k' : String) (v : JSVal)
    (k : String) :
    getField (fs ++ [(k', v)]) k = if k' = k then v else getField fs k := by
  simp [getField, List.foldl_append]

theorem hasField_append (fs gs : List (String × JSVal)) (k : String) :
    hasField (fs ++ gs) k = (hasField fs k || hasField gs k) := by
  simp [hasField, List.any_append]

theorem hasField_singleton (k' : String) (v : JSVal) (k : String) :
    hasField [(k', v)] k = (k' == k) := by
  simp [hasField]

theorem beq_false_of_ne {k' k : String} (h : ¬k' = k) : (k' == k) = false := by
  simpa using h

theorem getField_of_not_hasField (fs : List (String × JSVal)) (k : String)
    (h : hasField fs k = false) : getField fs k = .undefined := by
  induction fs using List.reverseRecOn with
  | nil => rfl
  | append_singleton fs kv ih =>
    obtain ⟨k', v⟩ := kv
    rw [hasField_append] at h
    simp only [Bool.or_eq_false_iff] at h
    have h2 : k' ≠ k := by
      have := h.2
      simpa [hasField] using this
    rw [getField_append_singleton, if_neg h2, ih h.1]

theorem getField_append (fs gs : List (String × JSVal)) (k : String) :
    getField (fs ++ gs) k = if hasField gs k then getField gs k else getField fs k := by
  induction gs using List.reverseRecOn with
  | nil => simp [hasField]
  | append_singleton gs kv ih =>
    obtain ⟨k', v⟩ := kv
    rw [← List.append_assoc, getField_append_singleton, getField_append_singleton, ih,
      hasField_append, hasField_singleton]
    by_cases h : k' = k
    · simp [h]
    · simp [h, beq_false_of_ne h]

theorem getField_map_replace (fs : List (String × JSVal)) (k' : String) (v : JSVal)
    (k : String) :
    getField (fs.map (fun kv => if kv.1 = k' then (k', v) else kv)) k
      = if k' = k then (if hasField fs k' then v else .undefined) else getField fs k := by
  induction fs using List.reverseRecOn with
  | nil => simp [getField, hasField]
  | append_singleton fs kv ih =>
    obtain ⟨k2, v2⟩ := kv
    rw [List.map_append, List.map_singleton, hasField_append, hasField_singleton]
    by_cases h2 : k2 = k'
    · subst h2
      simp only [if_true, getField_append_singleton]
      by_cases h : k2 = k
      · simp [h]
      · simp [h, ih]
    · simp only [if_neg h2, getField_append_singleton, ih]
      by_cases h : k' = k
      · subst h
        simp [h2, beq_false_of_ne h2]
      · simp [h]

theorem hasField_map_replace (fs : List (String × JSVal)) (k' : String) (v : JSVal)
    (k : String) :
    hasField (fs.map (fun kv => if kv.1 = k' then (k', v) else kv)) k = hasField fs k := by
  induction fs with
  | nil => rfl
  | cons kv fs ih =>
    simp only [hasField, List.map_cons, List.any_cons] at ih ⊢
    rw [ih]
    by_cases h : kv.1 = k'
    · simp [h]
    · simp [h]

theorem getField_setField (fs : List (String × JSVal)) (k' : String) (v : JSVal) (k : String) :
    getField (setField fs k' v) k = if k' = k then v else getField fs k := by
  unfold setField
  by_cases h : hasField fs k' = true
  · rw [if_pos h, getField_map_replace, h]; simp
  · rw [if_neg h, getField_append_singleton]

theorem hasField_setField (fs : List (String × JSVal)) (k' : String) (v : JSVal) (k : String) :
    hasField (setField fs k' v) k = (hasField fs k || k' == k) := by
  unfold setField
  by_cases h : hasField fs k' = true
  · rw [if_pos h, hasField_map_replace]
    by_cases hk : k' = k
    · subst hk; simp [h]
    · simp [hk]
  · rw [if_neg h, hasField_append]; simp [hasField]

theorem getField_foldl_setField (es acc : List (String × JSVal)) (k : String) :
    getField (es.foldl (fun a kv => setField a kv.1 kv.2) acc) k
      = if hasField es k then getField es k else getField acc k := by
  induction es using List.reverseRecOn generalizing acc with
  | nil => simp [hasField]
  | append_singleton es kv ih =>
    obtain ⟨k', v⟩ := kv
    rw [List.foldl_append]
    simp only [List.foldl_cons, List.foldl_nil]
    rw [getField_setField, ih, getField_append_singleton, hasField_append, hasField_singleton]
    by_cases h : k' = k
    · simp [h]
    · simp [h, beq_false_of_ne h]

theorem hasField_foldl_setField (es acc : List (String × JSVal)) (k : String) :
    hasField (es.foldl (fun a kv => setField a kv.1 kv.2) acc) k
      = (hasField acc k || hasField es k) := by
  induction es generalizing acc with
  | nil => simp [hasField]
  | cons kv es ih =>
    simp only [List.foldl_cons]
    rw [ih, hasField_setField]
    simp [hasField, Bool.or_assoc]

/-- The fields of `{ ...a, ...patch }` for two objects: a field of the patch takes the
value the patch gives it, every other field keeps the value it has in `a`. -/
theorem getField_objectSpread (fs pf : List (String × JSVal)) (k : String) :
    ∃ gs, objectSpread (.obj fs) (.obj pf) = .obj gs
      ∧ getField gs k = (if hasField pf k then getField pf k else getField fs k)
      ∧ hasField gs k = (hasField fs k || hasField pf k) := by
  refine ⟨_, rfl, ?_, ?_⟩
  · simp only [ownEntries]
    rw [getField_foldl_setField, getField_append, hasField_append]
    by_cases h1 : hasField pf k = true
    · simp [h1]
    · by_cases h2 : hasField fs k = true
      · simp [h1, h2]
      · simp only [Bool.not_eq_true] at h1 h2
        simp [h1, h2, getField_of_not_hasField, getField_nil]
  · simp only [ownEntries]
    rw [hasField_foldl_setField, hasField_append]
    simp [hasField]

/-! ## The JSON parser reads what the serializer writes -/

theorem digitChar_facts : ∀ d : Fin 10,
    (digitChar d.val).isDigit = true ∧ digitVal (digitChar d.val) = d.val
      ∧ (digitChar d.val = '0' ↔ d.val = 0) := by
  decide

theorem natCharsAux_append (fuel n : Nat) (acc : List Char) :
    natCharsAux fuel n acc = natCharsAux fuel n [] ++ acc := by
  induction fuel generalizing n acc with
  | zero => rfl
  | succ fuel ih =>
    simp only [natCharsAux]
    by_cases h : n < 10
    · simp [h]
    · simp only [h, if_false]
      rw [ih, ih (n / 10) [digitChar (n % 10)]]
      simp

/-- The value of a numeral read from left to right, continuing from `a`. -/
theorem parseDigits_append (ds rest : List Char) (a : Nat)
    (hds : ∀ c ∈ ds, c.isDigit = true) (hrest : ∀ c r, rest = c :: r → c.isDigit = false) :
    parseDigits (ds ++ rest) a = (ds.foldl (fun a c => a * 10 + digitVal c) a, rest) := by
  induction ds generalizing a with
  | nil =>
    cases rest with
    | nil => rfl
    | cons c r => simp [parseDigits, hrest c r rfl]
  | cons d ds ih =>
    have hd := hds d (List.mem_cons_self _ _)
    simp only [List.cons_append, parseDigits, hd, if_true, List.foldl_cons]
    exact ih _ (fun c hc => hds c (List.mem_cons_of_mem _ hc))

theorem natCharsAux_spec (fuel n : Nat) (h : n < fuel) :
    ∃ c tl, natCharsAux fuel n [] = c :: tl ∧ c.isDigit = true ∧ (c = '0' ↔ n = 0)
      ∧ (∀ x ∈ tl, x.isDigit = true)
      ∧ tl.foldl (fun a c => a * 10 + digitVal c) (digitVal c) = n := by
  induction fuel generalizing n with
  | zero => omega
  | succ fuel ih =>
    simp only [natCharsAux]
    by_cases h10 : n < 10
    · obtain ⟨h1, h2, h3⟩ := digitChar_facts ⟨n, h10⟩
      simp only [h10, if_true]
      exact ⟨digitChar n, [], rfl, h1, h3, by simp, by simpa using h2⟩
    · simp only [h10, if_false]
      have hlt : n / 10 < fuel := by omega
      obtain ⟨c, tl, e, hc, hz, htl, hv⟩ := ih (n / 10) hlt
      obtain ⟨h1, h2, -⟩ := digitChar_facts ⟨n % 10, Nat.mod_lt _ (by decide)⟩
      rw [natCharsAux_append, e]
      refine ⟨c, tl ++ [digitChar (n % 10)], rfl, hc, ?_, ?_, ?_⟩
      · constructor
        · intro h0
          have := hz.1 h0
          omega
        · intro h0; omega
      · intro x hx
        rcases List.mem_append.1 hx with hx | hx
        · exact htl x hx
        · simp only [List.mem_singleton] at hx
          rw [hx]; exact h1
      · rw [List.foldl_append, hv]
        simp only [List.foldl_cons, List.foldl_nil]
        simp only at h2
        rw [h2]
        omega

theorem numberEnds_head (rest : List Char) (h : numberEnds rest = true) :
    ∀ c r, rest = c :: r → c.isDigit = false := by
  intro c r e
  subst e
  simp only [numberEnds, Bool.not_eq_true', Bool.or_eq_false_iff] at h
  exact h.1.1.1

theorem parseNat_natChars (n : Nat) (rest : List Char) (h : numberEnds rest = true) :
    parseNat (natChars n ++ rest) = some (n, rest) := by
  obtain ⟨c, tl, e, hc, hz, htl, hv⟩ := natCharsAux_spec (n + 1) n (Nat.lt_succ_self n)
  simp only [natChars, e, List.cons_append, parseNat]
  by_cases h0 : c = '0'
  · have hn := hz.1 h0
    subst hn
    have : tl = [] := by
      simp [natCharsAux] at e
      exact e.2
    simp [h0, this]
  · simp only [h0, if_false, hc, if_true]
    rw [parseDigits_append tl rest _ htl (numberEnds_head rest h), hv]

theorem natChars_head (n : Nat) : ∃ c tl, natChars n = c :: tl ∧ c.isDigit = true := by
  obtain ⟨c, tl, e, hc, -⟩ := natCharsAux_spec (n + 1) n (Nat.lt_succ_self n)
  exact ⟨c, tl, e, hc⟩

theorem isDigit_ne_minus (c : Char) (h : c.isDigit = true) : c ≠ '-' := by
  rintro rfl; revert h; decide

theorem parseNumber_intChars (n : Int) (rest : List Char) (h : numberEnds rest = true) :
    parseNumber (intChars n ++ rest) = some (.num n, rest) := by
  cases n with
  | ofNat m =>
    obtain ⟨c, tl, e, hc⟩ := natChars_head m
    have hp := parseNat_natChars m rest h
    simp only [intChars]
    rw [e] at hp ⊢
    simp only [List.cons_append, parseNumber, isDigit_ne_minus c hc, if_false] at hp ⊢
    rw [hp]
    simp [h]
  | negSucc m =>
    have hp := parseNat_natChars (m + 1) rest h
    simp only [intChars, List.cons_append, parseNumber, if_true, hp, h]
    rfl

/-- The first character of a numeral: a digit or the minus sign. -/
theorem intChars_head (n : Int) :
    ∃ c tl, intChars n = c :: tl ∧ (c.isDigit = true ∨ c = '-') := by
  cases n with
  | ofNat m =>
    obtain ⟨c, tl, e, hc⟩ := natChars_head m
    exact ⟨c, tl, e, Or.inl hc⟩
  | negSucc m => exact ⟨'-', natChars (m + 1), rfl, Or.inr rfl⟩

theorem hex4_quote : ∀ n : Fin 32,
    hex4 '0' '0' (hexChar (n.val / 16)) (hexChar (n.val % 16)) = some n.val := by
  decide

theorem stringStep_quote (rest : List Char) : stringStep ('"' :: rest) = some (none, rest) := by
  simp [stringStep]

theorem stringStep_quoteChar (c : Char) (rest : List Char) :
    stringStep (quoteChar c ++ rest) = some (some c, rest) := by
  simp only [quoteChar]
  by_cases h1 : c = '"'
  · subst h1; simp [stringStep]
  by_cases h2 : c = '\\'
  · subst h2; simp [stringStep]
  by_cases h3 : c = '\x08'
  · subst h3; simp [stringStep]
  by_cases h4 : c = '\x0c'
  · subst h4; simp [stringStep]
  by_cases h5 : c = '\n'
  · subst h5; simp [stringStep]
  by_cases h6 : c = '\r'
  · subst h6; simp [stringStep]
  by_cases h7 : c = '\t'
  · subst h7; simp [stringStep]
  by_cases h8 : c.toNat < 32
  · have hx := hex4_quote ⟨c.toNat, h8⟩
    simp only at hx
    have hlow : ¬(55296 ≤ c.toNat ∧ c.toNat < 56320) := by omega
    have hlow2 : ¬(56320 ≤ c.toNat ∧ c.toNat < 57344) := by omega
    simp [h1, h2, h3, h4, h5, h6, h7, h8, stringStep, hx, hlow, hlow2, Char.ofNat_toNat]
  · simp [h1, h2, h3, h4, h5, h6, h7, h8, stringStep]

theorem quoteChar_length_pos (c : Char) : 1 ≤ (quoteChar c).length := by
  simp only [quoteChar]
  split_ifs <;> simp

theorem quoteBody_length (cs : List Char) : cs.length + 1 ≤ (quoteBody cs).length := by
  induction cs with
  | nil => simp [quoteBody]
  | cons c cs ih =>
    have := quoteChar_length_pos c
    simp only [quoteBody, List.length_append, List.length_cons]
    omega

theorem parseStringSteps_quoteBody (cs rest : List Char) (n : Nat) (h : cs.length + 1 ≤ n) :
    parseStringSteps n (quoteBody cs ++ rest) = some (cs, rest) := by
  induction cs generalizing n with
  | nil =>
    obtain ⟨m, rfl⟩ : ∃ m, n = m + 1 := ⟨n - 1, by simp at h; omega⟩
    simp [quoteBody, parseStringSteps, stringStep_quote]
  | cons c cs ih =>
    obtain ⟨m, rfl⟩ : ∃ m, n = m + 1 := ⟨n - 1, by simp at h; omega⟩
    simp only [quoteBody, List.append_assoc, parseStringSteps, stringStep_quoteChar]
    rw [ih m (by simp at h; omega)]
    rfl

theorem parseStringBody_quoteBody (cs rest : List Char) :
    parseStringBody (quoteBody cs ++ rest) = some (cs, rest) := by
  apply parseStringSteps_quoteBody
  have := quoteBody_length cs
  simp only [List.length_append]
  omega

/-- Induction on values, on the elements of an array and on the fields of an object
at once. -/
theorem JSVal.induct {P : JSVal → Prop} {Q : List JSVal → Prop}
    {R : List (String × JSVal) → Prop}
    (hu : P .undefined) (hn : P .null) (hb : ∀ b, P (.bool b)) (hnum : ∀ n, P (.num n))
    (hs : ∀ s, P (.str s)) (harr : ∀ xs, Q xs → P (.arr xs)) (hobj : ∀ fs, R fs → P (.obj fs))
    (hnil : Q []) (hcons : ∀ x xs, P x → Q xs → Q (x :: xs))
    (hfnil : R []) (hfcons : ∀ k v fs, P v → R fs → R ((k, v) :: fs)) :
    (∀ v, P v) ∧ (∀ xs, Q xs) ∧ (∀ fs, R fs) := by
  have hv : ∀ v, P v := fun v =>
    JSVal.rec (motive_1 := P) (motive_2 := Q) (motive_3 := R) (motive_4 := fun kv => P kv.2)
      hu hn hb hnum hs harr hobj hnil hcons hfnil
      (fun kv fs h1 h2 => hfcons kv.1 kv.2 fs h1 h2) (fun _ _ h => h) v
  refine ⟨hv, fun xs => ?_, fun fs => ?_⟩
  · induction xs with
    | nil => exact hnil
    | cons x xs ih => exact hcons x xs (hv x) ih
  · induction fs with
    | nil => exact hfnil
    | cons kv fs ih => exact hfcons kv.1 kv.2 fs (hv kv.2) ih

theorem skipWs_append_of_allWs (w cs : List Char) (h : AllWs w) :
    skipWs (w ++ cs) = skipWs cs := by
  induction w with
  | nil => rfl
  | cons c w ih =>
    have hc := h c (List.mem_cons_self _ _)
    simp only [List.cons_append, skipWs, hc, if_true]
    exact ih (fun x hx => h x (List.mem_cons_of_mem _ hx))

theorem skipWs_cons_of_not_ws (c : Char) (cs : List Char) (h : isWs c = false) :
    skipWs (c :: cs) = c :: cs := by
  simp [skipWs, h]

theorem allWs_nil : AllWs [] := by
  intro c hc; cases hc

theorem allWs_spaces (n : Nat) : AllWs (spaces n) := by
  intro c hc
  have := List.eq_of_mem_replicate hc
  subst this
  decide

theorem allWs_newline_spaces (n : Nat) : AllWs ('\n' :: spaces n) := by
  intro c hc
  rcases List.mem_cons.1 hc with rfl | hc
  · decide
  · exact allWs_spaces n c hc

theorem allWs_space : AllWs [' '] := by
  intro c hc
  simp only [List.mem_singleton] at hc
  subst hc
  decide

theorem parseValue_skip (fuel : Nat) (w cs : List Char) (h : AllWs w) :
    parseValue fuel (w ++ cs) = parseValue fuel cs := by
  cases fuel with
  | zero => rfl
  | succ f => simp only [parseValue, skipWs_append_of_allWs w cs h]

theorem isWs_cases (c : Char) (h : isWs c = true) :
    c = ' ' ∨ c = '\t' ∨ c = '\n' ∨ c = '\r' := by
  simpa [isWs, or_assoc] using h

theorem numberEnds_after (w : List Char) (c : Char) (r : List Char) (hw : AllWs w)
    (hc : c = ',' ∨ c = ']' ∨ c = '}') : numberEnds (w ++ c :: r) = true := by
  cases w with
  | nil =>
    rcases hc with rfl | rfl | rfl <;> rfl
  | cons x w =>
    have hx := isWs_cases x (hw x (List.mem_cons_self _ _))
    rcases hx with rfl | rfl | rfl | rfl <;> rfl

theorem numStart_facts (c : Char) (h : c.isDigit = true ∨ c = '-') :
    isWs c = false ∧ c ≠ 'n' ∧ c ≠ 't' ∧ c ≠ 'f' ∧ c ≠ '"' ∧ c ≠ '[' ∧ c ≠ '{'
      ∧ c ≠ ']' ∧ c ≠ '}' := by
  have key : ∀ d : Char, (d.isDigit = false ∧ d ≠ '-') → c ≠ d := by
    rintro d ⟨hd, hm⟩ rfl
    rcases h with h | h
    · rw [h] at hd; cases hd
    · exact hm h
  refine ⟨?_, key _ (by decide), key _ (by decide), key _ (by decide), key _ (by decide),
    key _ (by decide), key _ (by decide), key _ (by decide), key _ (by decide)⟩
  cases hw : isWs c with
  | false => rfl
  | true =>
    rcases isWs_cases c hw with e | e | e | e
    · exact absurd e (key _ (by decide))
    · exact absurd e (key _ (by decide))
    · exact absurd e (key _ (by decide))
    · exact absurd e (key _ (by decide))

theorem parseValue_numStart (fuel : Nat) (c : Char) (cs : List Char)
    (h : c.isDigit = true ∨ c = '-') :
    parseValue (fuel + 1) (c :: cs) = parseNumber (c :: cs) := by
  obtain ⟨h0, h1, h2, h3, h4, h5, h6, -, -⟩ := numStart_facts c h
  simp only [parseValue, skipWs_cons_of_not_ws c cs h0, h1, h2, h3, h4, h5, h6, if_false]

theorem joinWith_cons_cons (sep a b : List Char) (rest : List (List Char)) :
    joinWith sep (a :: b :: rest) = a ++ sep ++ joinWith sep (b :: rest) := rfl

theorem bracket_form (lb rb : Char) (gap ind : Nat) (parts : List (List Char))
    (h : parts ≠ []) :
    ∃ w0 w1 w2, AllWs w0 ∧ AllWs w1 ∧ AllWs w2
      ∧ bracket lb rb gap ind parts = lb :: (w0 ++ joinWith (',' :: w1) parts ++ w2 ++ [rb]) := by
  have he : parts.isEmpty = false := by
    cases parts with
    | nil => exact absurd rfl h
    | cons a l => rfl
  by_cases hg : gap = 0
  · refine ⟨[], [], [], allWs_nil, allWs_nil, allWs_nil, ?_⟩
    simp [bracket, he, hg]
  · refine ⟨'\n' :: spaces (ind + gap), '\n' :: spaces (ind + gap), '\n' :: spaces ind,
      allWs_newline_spaces _, allWs_newline_spaces _, allWs_newline_spaces _, ?_⟩
    simp [bracket, he, hg]

theorem serialize_isSome (gap ind : Nat) (v : JSVal) (h : v.isJSON = true) :
    ∃ t, serialize gap ind v = some t := by
  cases v with
  | undefined => simp [JSVal.isJSON] at h
  | null => exact ⟨_, by rw [serialize]⟩
  | bool b => cases b <;> exact ⟨_, by rw [serialize]⟩
  | num n => exact ⟨_, by rw [serialize]⟩
  | str s => exact ⟨_, by rw [serialize]⟩
  | arr xs => exact ⟨_, by rw [serialize]⟩
  | obj fs => exact ⟨_, by rw [serialize]⟩

/-- The first character of the text of a value is no white space and closes no
array or object. -/
theorem serialize_head (gap ind : Nat) (v : JSVal) (t : List Char)
    (h : serialize gap ind v = some t) :
    ∃ c t', t = c :: t' ∧ isWs c = false ∧ c ≠ ']' ∧ c ≠ '}' := by
  cases v with
  | undefined => simp [serialize] at h
  | null =>
    simp only [serialize, Option.some.injEq] at h
    subst h; exact ⟨_, _, rfl, by decide, by decide, by decide⟩
  | bool b =>
    cases b <;>
    · simp only [serialize, Option.some.injEq] at h
      subst h; exact ⟨_, _, rfl, by decide, by decide, by decide⟩
  | num n =>
    simp only [serialize, Option.some.injEq] at h
    subst h
    obtain ⟨c, tl, e, hc⟩ := intChars_head n
    obtain ⟨h0, -, -, -, -, -, -, h7, h8⟩ := numStart_facts c hc
    exact ⟨c, tl, e, h0, h7, h8⟩
  | str s =>
    simp only [serialize, Option.some.injEq] at h
    subst h; exact ⟨_, _, rfl, by decide, by decide, by decide⟩
  | arr xs =>
    simp only [serialize, Option.some.injEq] at h
    subst h
    simp only [bracket]
    split_ifs <;> exact ⟨_, _, rfl, by decide, by decide, by decide⟩
  | obj fs =>
    simp only [serialize, Option.some.injEq] at h
    subst h
    simp only [bracket]
    split_ifs <;> exact ⟨_, _, rfl, by decide, by decide, by decide⟩

theorem size_pos (v : JSVal) : 1 ≤ v.size := by
  cases v <;> simp [JSVal.size]

theorem hasField_eq_false_iff (fs : List (String × JSVal)) (k : String) :
    hasField fs k = false ↔ k ∉ fs.map Prod.fst := by
  induction fs with
  | nil => simp [hasField]
  | cons kv fs ih =>
    simp only [hasField, List.any_cons, Bool.or_eq_false_iff, List.map_cons, List.mem_cons,
      not_or] at ih ⊢
    rw [ih]
    constructor
    · rintro ⟨h1, h2⟩
      exact ⟨fun e => by simp [e] at h1, h2⟩
    · rintro ⟨h1, h2⟩
      exact ⟨by simpa using fun e => h1 e.symm, h2⟩

theorem foldl_setField_nodup (fs acc : List (String × JSVal))
    (h : ((acc ++ fs).map Prod.fst).Nodup) :
    fs.foldl (fun a kv => setField a kv.1 kv.2) acc = acc ++ fs := by
  induction fs generalizing acc with
  | nil => simp
  | cons kv fs ih =>
    have hk : hasField acc kv.1 = false := by
      rw [hasField_eq_false_iff]
      intro hmem
      rw [List.map_append, List.map_cons] at h
      have := (List.nodup_append.1 h).2.2
      exact this hmem (List.mem_cons_self _ _)
    have hs : setField acc kv.1 kv.2 = acc ++ [kv] := by
      simp [setField, hk]
    rw [List.foldl_cons, hs, ih (acc ++ [kv]) (by simpa using h)]
    simp

theorem parseElems_last (pv : List Char → Option (JSVal × List Char)) (n : Nat)
    (cs r1 rest : List Char) (v : JSVal) (h1 : pv cs = some (v, r1))
    (h2 : skipWs r1 = ']' :: rest) : parseElems pv (n + 1) cs = some ([v], rest) := by
  simp [parseElems, h1, h2]

theorem parseElems_more (pv : List Char → Option (JSVal × List Char)) (n : Nat)
    (cs r1 r2 rest : List Char) (v : JSVal) (vs : List JSVal) (h1 : pv cs = some (v, r1))
    (h2 : skipWs r1 = ',' :: r2) (h3 : parseElems pv n r2 = some (vs, rest)) :
    parseElems pv (n + 1) cs = some (v :: vs, rest) := by
  simp [parseElems, h1, h2, h3]

theorem parseMembers_last (pv : List Char → Option (JSVal × List Char)) (n : Nat)
    (cs r0 r1 r2 r3 rest k : List Char) (v : JSVal) (h0 : skipWs cs = '"' :: r0)
    (h1 : parseStringBody r0 = some (k, r1)) (h2 : skipWs r1 = ':' :: r2)
    (h3 : pv r2 = some (v, r3)) (h4 : skipWs r3 = '}' :: rest) :
    parseMembers pv (n + 1) cs = some ([(String.mk k, v)], rest) := by
  simp [parseMembers, h0, h1, h2, h3, h4]

theorem parseMembers_more (pv : List Char → Option (JSVal × List Char)) (n : Nat)
    (cs r0 r1 r2 r3 r4 rest k : List Char) (v : JSVal) (fs : List (String × JSVal))
    (h0 : skipWs cs = '"' :: r0) (h1 : parseStringBody r0 = some (k, r1))
    (h2 : skipWs r1 = ':' :: r2) (h3 : pv r2 = some (v, r3)) (h4 : skipWs r3 = ',' :: r4)
    (h5 : parseMembers pv n r4 = some (fs, rest)) :
    parseMembers pv (n + 1) cs = some ((String.mk k, v) :: fs, rest) := by
  simp [parseMembers, h0, h1, h2, h3, h4, h5]

theorem parseValue_null (f : Nat) (rest : List Char) :
    parseValue (f + 1) ('n' :: 'u' :: 'l' :: 'l' :: rest) = some (.null, rest) := by
  simp [parseValue, skipWs, isWs, startsWith]

theorem parseValue_true (f : Nat) (rest : List Char) :
    parseValue (f + 1) ('t' :: 'r' :: 'u' :: 'e' :: rest) = some (.bool true, rest) := by
  simp [parseValue, skipWs, isWs, startsWith]

theorem parseValue_false (f : Nat) (rest : List Char) :
    parseValue (f + 1) ('f' :: 'a' :: 'l' :: 's' :: 'e' :: rest) = some (.bool false, rest) := by
  simp [parseValue, skipWs, isWs, startsWith]

theorem parseValue_string (f : Nat) (body rest k : List Char)
    (h : parseStringBody body = some (k, rest)) :
    parseValue (f + 1) ('"' :: body) = some (.str (String.mk k), rest) := by
  simp [parseValue, skipWs, isWs, h]

theorem parseValue_arr_empty (f : Nat) (rest : List Char) :
    parseValue (f + 1) ('[' :: ']' :: rest) = some (.arr [], rest) := by
  simp [parseValue, skipWs, isWs]

theorem parseValue_obj_empty (f : Nat) (rest : List Char) :
    parseValue (f + 1) ('{' :: '}' :: rest) = some (.obj [], rest) := by
  simp [parseValue, skipWs, isWs]

theorem parseValue_arr (f : Nat) (body r rest : List Char) (d : Char) (xs : List JSVal)
    (h1 : skipWs body = d :: r) (hd : d ≠ ']')
    (h2 : parseElems (parseValue f) f (d :: r) = some (xs, rest)) :
    parseValue (f + 1) ('[' :: body) = some (.arr xs, rest) := by
  simp [parseValue, skipWs, isWs, h1, hd, h2]

theorem parseValue_obj (f : Nat) (body r rest : List Char) (d : Char)
    (fs : List (String × JSVal)) (h1 : skipWs body = d :: r) (hd : d ≠ '}')
    (h2 : parseMembers (parseValue f) f (d :: r) = some (fs, rest)) :
    parseValue (f + 1) ('{' :: body)
      = some (.obj (fs.foldl (fun acc kv => setField acc kv.1 kv.2) []), rest) := by
  simp [parseValue, skipWs, isWs, h1, hd, h2]

theorem joinWith_cons (sep a : List Char) (l : List (List Char)) :
    ∃ s, joinWith sep (a :: l) = a ++ s := by
  cases l with
  | nil => exact ⟨[], by simp [joinWith]⟩
  | cons b l => exact ⟨sep ++ joinWith sep (b :: l), by simp [joinWith]⟩

theorem serializeElems_cons (gap ind : Nat) (x : JSVal) (xs : List JSVal) (t : List Char)
    (h : serialize gap ind x = some t) :
    serializeElems gap ind (x :: xs) = t :: serializeElems gap ind xs := by
  rw [serializeElems, h]

theorem serializeMembers_cons (gap ind : Nat) (k : String) (v : JSVal)
    (fs : List (String × JSVal)) (t : List Char) (h : serialize gap ind v = some t) :
    ∃ ws, AllWs ws ∧ serializeMembers gap ind ((k, v) :: fs)
      = ('"' :: (quoteBody k.data ++ ':' :: (ws ++ t))) :: serializeMembers gap ind fs := by
  by_cases hg : gap = 0
  · exact ⟨[], allWs_nil, by rw [serializeMembers, h]; simp [hg, quote]⟩
  · exact ⟨[' '], allWs_space, by rw [serializeMembers, h]; simp [hg, quote]⟩

theorem succ_of_pos (n : Nat) (h : 1 ≤ n) : ∃ m, n = m + 1 := ⟨n - 1, by omega⟩

/-- The parser reads back every JSON value from the text the serializer writes
for it, compact or indented, whatever follows the text, given fuel for the size of
the value. -/
theorem parse_serialize_all :
    (∀ v : JSVal, ∀ (gap ind : Nat) (t : List Char) (fuel : Nat) (rest : List Char),
        v.isJSON = true → serialize gap ind v = some t → v.size ≤ fuel →
        numberEnds rest = true → parseValue fuel (t ++ rest) = some (v, rest))
    ∧ (∀ xs : List JSVal, ∀ (gap ind fuel n : Nat) (w0 w1 w2 rest : List Char),
        allJSON xs = true → xs ≠ [] → sizeList xs ≤ fuel → sizeList xs ≤ n →
        AllWs w0 → AllWs w1 → AllWs w2 →
        parseElems (parseValue fuel) n
          (w0 ++ (joinWith (',' :: w1) (serializeElems gap ind xs) ++ (w2 ++ ']' :: rest)))
          = some (xs, rest))
    ∧ (∀ fs : List (String × JSVal), ∀ (gap ind fuel n : Nat) (w0 w1 w2 rest : List Char),
        fieldsJSON fs = true → fs ≠ [] → sizeFields fs ≤ fuel → sizeFields fs ≤ n →
        AllWs w0 → AllWs w1 → AllWs w2 →
        parseMembers (parseValue fuel) n
          (w0 ++ (joinWith (',' :: w1) (serializeMembers gap ind fs) ++ (w2 ++ '}' :: rest)))
          = some (fs, rest)) := by
  refine JSVal.induct ?_ ?_ ?_ ?_ ?_ ?_ ?_ ?_ ?_ ?_ ?_
  · -- undefined
    intro gap ind t fuel rest h
    simp [JSVal.isJSON] at h
  · -- null
    intro gap ind t fuel rest _ ht hf _
    obtain ⟨f, rfl⟩ := succ_of_pos fuel (by simpa [JSVal.size] using hf)
    simp only [serialize, Option.some.injEq] at ht
    subst ht
    exact parseValue_null f rest
  · -- bool
    intro b gap ind t fuel rest _ ht hf _
    obtain ⟨f, rfl⟩ := succ_of_pos fuel (by simpa [JSVal.size] using hf)
    cases b
    · simp only [serialize, Option.some.injEq] at ht
      subst ht
      exact parseValue_false f rest
    · simp only [serialize, Option.some.injEq] at ht
      subst ht
      exact parseValue_true f rest
  · -- num
    intro n gap ind t fuel rest _ ht hf hr
    obtain ⟨f, rfl⟩ := succ_of_pos fuel (by simpa [JSVal.size] using hf)
    simp only [serialize, Option.some.injEq] at ht
    subst ht
    obtain ⟨c, tl, e, hc⟩ := intChars_head n
    have hp := parseNumber_intChars n rest hr
    rw [e] at hp ⊢
    rw [List.cons_append] at hp ⊢
    rw [parseValue_numStart f c _ hc]
    exact hp
  · -- str
    intro s gap ind t fuel rest _ ht hf _
    obtain ⟨f, rfl⟩ := succ_of_pos fuel (by simpa [JSVal.size] using hf)
    simp only [serialize, Option.some.injEq] at ht
    subst ht
    simp only [quote, List.cons_append]
    exact parseValue_string f _ rest s.data (parseStringBody_quoteBody s.data rest)
  · -- arr
    intro xs Q gap ind t fuel rest hj ht hf _
    obtain ⟨f, rfl⟩ := succ_of_pos fuel (by simp only [JSVal.size] at hf; omega)
    simp only [serialize, Option.some.injEq] at ht
    subst ht
    simp only [JSVal.isJSON] at hj
    simp only [JSVal.size] at hf
    cases xs with
    | nil =>
      simp only [serializeElems, bracket, List.isEmpty_nil, if_true, List.cons_append,
        List.nil_append]
      exact parseValue_arr_empty f rest
    | cons x xs =>
      have hx : x.isJSON = true := by
        simp only [allJSON, Bool.and_eq_true] at hj
        exact hj.1
      obtain ⟨tx, htx⟩ := serialize_isSome gap (ind + gap) x hx
      have hparts := serializeElems_cons gap (ind + gap) x xs tx htx
      obtain ⟨w0, w1, w2, h0, h1, h2, hb⟩ := bracket_form '[' ']' gap ind
        (serializeElems gap (ind + gap) (x :: xs)) (by rw [hparts]; simp)
      rw [hb]
      have hq := Q gap (ind + gap) f f [] w1 w2 rest hj (by simp) (by omega) (by omega)
        allWs_nil h1 h2
      obtain ⟨c0, tx', rfl, hc0, hne, -⟩ := serialize_head gap (ind + gap) x tx htx
      obtain ⟨s, hs⟩ := joinWith_cons (',' :: w1) (c0 :: tx') (serializeElems gap (ind + gap) xs)
      rw [hparts, hs] at hq ⊢
      simp only [List.cons_append, List.append_assoc, List.nil_append] at hq ⊢
      refine parseValue_arr f _ _ rest c0 (x :: xs) ?_ hne hq
      rw [skipWs_append_of_allWs _ _ h0, skipWs_cons_of_not_ws _ _ hc0]
  · -- obj
    intro fs R gap ind t fuel rest hj ht hf _
    obtain ⟨f, rfl⟩ := succ_of_pos fuel (by simp only [JSVal.size] at hf; omega)
    simp only [serialize, Option.some.injEq] at ht
    subst ht
    simp only [JSVal.isJSON, Bool.and_eq_true, decide_eq_true_eq] at hj
    simp only [JSVal.size] at hf
    cases fs with
    | nil =>
      simp only [serializeMembers, bracket, List.isEmpty_nil, if_true, List.cons_append,
        List.nil_append]
      exact parseValue_obj_empty f rest
    | cons kv fs =>
      obtain ⟨k, v⟩ := kv
      have hv : v.isJSON = true := by
        have := hj.1
        simp only [fieldsJSON, Bool.and_eq_true] at this
        exact this.1
      obtain ⟨tv, htv⟩ := serialize_isSome gap (ind + gap) v hv
      obtain ⟨ws, hws, hparts⟩ := serializeMembers_cons gap (ind + gap) k v fs tv htv
      obtain ⟨w0, w1, w2, h0, h1, h2, hb⟩ := bracket_form '{' '}' gap ind
        (serializeMembers gap (ind + gap) ((k, v) :: fs)) (by rw [hparts]; simp)
      rw [hb]
      have hq := R gap (ind + gap) f f [] w1 w2 rest hj.1 (by simp) (by omega) (by omega)
        allWs_nil h1 h2
      obtain ⟨s, hs⟩ := joinWith_cons (',' :: w1) ('"' :: (quoteBody k.data ++ ':' :: (ws ++ tv)))
        (serializeMembers gap (ind + gap) fs)
      rw [hparts, hs] at hq ⊢
      simp only [List.cons_append, List.append_assoc, List.nil_append] at hq ⊢
      have hres := parseValue_obj f _ _ rest '"' ((k, v) :: fs)
        (by rw [skipWs_append_of_allWs _ _ h0, skipWs_cons_of_not_ws '"' _ (by decide)])
        (by decide) hq
      rw [hres, foldl_setField_nodup ((k, v) :: fs) [] (by simpa using hj.2)]
      simp
  · -- no element
    intro gap ind fuel n w0 w1 w2 rest _ hne
    exact absurd rfl hne
  · -- one more element
    intro x xs P Q gap ind fuel n w0 w1 w2 rest hj _ hf hn h0 h1 h2
    simp only [allJSON, Bool.and_eq_true] at hj
    simp only [sizeList] at hf hn
    have hpos := size_pos x
    obtain ⟨m, rfl⟩ := succ_of_pos n (by omega)
    obtain ⟨tx, htx⟩ := serialize_isSome gap ind x hj.1
    rw [serializeElems_cons gap ind x xs tx htx]
    cases xs with
    | nil =>
      simp only [serializeElems, joinWith]
      refine parseElems_last _ m _ (w2 ++ ']' :: rest) rest x ?_ ?_
      · rw [parseValue_skip _ _ _ h0]
        exact P gap ind tx fuel _ hj.1 htx (by omega) (numberEnds_after w2 ']' rest h2 (by simp))
      · rw [skipWs_append_of_allWs _ _ h2, skipWs_cons_of_not_ws _ _ (by decide)]
    | cons y ys =>
      obtain ⟨ty, hty⟩ := serialize_isSome gap ind y (by
        have := hj.2
        simp only [allJSON, Bool.and_eq_true] at this
        exact this.1)
      have hq := Q gap ind fuel m w1 w1 w2 rest hj.2 (by simp) (by omega) (by omega) h1 h1 h2
      rw [serializeElems_cons gap ind y ys ty hty] at hq ⊢
      rw [joinWith_cons_cons]
      simp only [List.cons_append, List.append_assoc] at hq ⊢
      refine parseElems_more _ m _
        (',' :: (w1 ++ (joinWith (',' :: w1) (ty :: serializeElems gap ind ys)
          ++ (w2 ++ ']' :: rest))))
        (w1 ++ (joinWith (',' :: w1) (ty :: serializeElems gap ind ys) ++ (w2 ++ ']' :: rest)))
        rest x (y :: ys) ?_ ?_ hq
      · rw [parseValue_skip _ _ _ h0]
        exact P gap ind tx fuel _ hj.1 htx (by omega) (by rfl)
      · rw [skipWs_cons_of_not_ws _ _ (by decide)]
  · -- no member
    intro gap ind fuel n w0 w1 w2 rest _ hne
    exact absurd rfl hne
  · -- one more member
    intro k v fs P R gap ind fuel n w0 w1 w2 rest hj _ hf hn h0 h1 h2
    simp only [fieldsJSON, Bool.and_eq_true] at hj
    simp only [sizeFields] at hf hn
    have hpos := size_pos v
    obtain ⟨m, rfl⟩ := succ_of_pos n (by omega)
    obtain ⟨tv, htv⟩ := serialize_isSome gap ind v hj.1
    obtain ⟨ws, hws, hparts⟩ := serializeMembers_cons gap ind k v fs tv htv
    rw [hparts]
    cases fs with
    | nil =>
      simp only [serializeMembers, joinWith, List.cons_append, List.append_assoc]
      have := parseMembers_last (parseValue fuel) m
        (w0 ++ '"' :: (quoteBody k.data ++ ':' :: (ws ++ (tv ++ (w2 ++ '}' :: rest)))))
        _ _ _ (w2 ++ '}' :: rest) rest k.data v
        (by rw [skipWs_append_of_allWs _ _ h0, skipWs_cons_of_not_ws _ _ (by decide)])
        (parseStringBody_quoteBody k.data _)
        (skipWs_cons_of_not_ws _ _ (by decide))
        (by
          rw [parseValue_skip _ _ _ hws]
          exact P gap ind tv fuel _ hj.1 htv (by omega)
            (numberEnds_after w2 '}' rest h2 (by simp)))
        (by rw [skipWs_append_of_allWs _ _ h2, skipWs_cons_of_not_ws _ _ (by decide)])
      exact this
    | cons kv' fs' =>
      obtain ⟨k', v'⟩ := kv'
      obtain ⟨tv', htv'⟩ := serialize_isSome gap ind v' (by
        have := hj.2
        simp only [fieldsJSON, Bool.and_eq_true] at this
        exact this.1)
      obtain ⟨ws', hws', hparts'⟩ := serializeMembers_cons gap ind k' v' fs' tv' htv'
      have hq := R gap ind fuel m w1 w1 w2 rest hj.2 (by simp) (by omega) (by omega) h1 h1 h2
      rw [hparts'] at hq ⊢
      rw [joinWith_cons_cons]
      simp only [List.cons_append, List.append_assoc] at hq ⊢
      have := parseMembers_more (parseValue fuel) m
        (w0 ++ '"' :: (quoteBody k.data ++ ':' :: (ws ++ (tv ++ ',' :: (w1 ++
          (joinWith (',' :: w1)
            (('"' :: (quoteBody k'.data ++ ':' :: (ws' ++ tv'))) :: serializeMembers gap ind fs')
            ++ (w2 ++ '}' :: rest)))))))
        _ _ _ _ _ rest k.data v ((k', v') :: fs')
        (by rw [skipWs_append_of_allWs _ _ h0, skipWs_cons_of_not_ws _ _ (by decide)])
        (parseStringBody_quoteBody k.data _)
        (skipWs_cons_of_not_ws _ _ (by decide))
        (by
          rw [parseValue_skip _ _ _ hws]
          exact P gap ind tv fuel _ hj.1 htv (by omega) (by rfl))
        (skipWs_cons_of_not_ws _ _ (by decide))
        hq
      exact this

theorem joinWith_length (sep : List Char) (parts : List (List Char)) :
    totalLength parts ≤ (joinWith sep parts).length := by
  induction parts with
  | nil => simp [totalLength, joinWith]
  | cons a l ih =>
    cases l with
    | nil => simp [totalLength, joinWith]
    | cons b l =>
      rw [joinWith_cons_cons]
      simp only [totalLength, List.map_cons, List.sum_cons, List.length_append] at ih ⊢
      omega

theorem bracket_length (lb rb : Char) (gap ind : Nat) (parts : List (List Char)) :
    1 + totalLength parts ≤ (bracket lb rb gap ind parts).length := by
  cases parts with
  | nil => simp [bracket, totalLength]
  | cons a l =>
    obtain ⟨w0, w1, w2, -, -, -, hb⟩ := bracket_form lb rb gap ind (a :: l) (by simp)
    have := joinWith_length (',' :: w1) (a :: l)
    rw [hb]
    simp only [List.length_cons, List.length_append]
    omega

/-- The text of a JSON value has at least as many characters as the value has
parts. -/
theorem size_le_length_all :
    (∀ v : JSVal, ∀ (gap ind : Nat) (t : List Char),
        v.isJSON = true → serialize gap ind v = some t → v.size ≤ t.length)
    ∧ (∀ xs : List JSVal, ∀ (gap ind : Nat),
        allJSON xs = true → sizeList xs ≤ totalLength (serializeElems gap ind xs))
    ∧ (∀ fs : List (String × JSVal), ∀ (gap ind : Nat),
        fieldsJSON fs = true → sizeFields fs ≤ totalLength (serializeMembers gap ind fs)) := by
  refine JSVal.induct ?_ ?_ ?_ ?_ ?_ ?_ ?_ ?_ ?_ ?_ ?_
  · intro gap ind t h
    simp [JSVal.isJSON] at h
  · intro gap ind t _ ht
    simp only [serialize, Option.some.injEq] at ht
    subst ht
    simp [JSVal.size]
  · intro b gap ind t _ ht
    cases b <;>
    · simp only [serialize, Option.some.injEq] at ht
      subst ht
      simp [JSVal.size]
  · intro n gap ind t _ ht
    simp only [serialize, Option.some.injEq] at ht
    subst ht
    obtain ⟨c, tl, e, -⟩ := intChars_head n
    rw [e]
    simp [JSVal.size]
  · intro s gap ind t _ ht
    simp only [serialize, Option.some.injEq] at ht
    subst ht
    simp [JSVal.size, quote]
  · intro xs Q gap ind t hj ht
    simp only [serialize, Option.some.injEq] at ht
    subst ht
    simp only [JSVal.isJSON] at hj
    have h1 := Q gap (ind + gap) hj
    have h2 := bracket_length '[' ']' gap ind (serializeElems gap (ind + gap) xs)
    simp only [JSVal.size]
    omega
  · intro fs R gap ind t hj ht
    simp only [serialize, Option.some.injEq] at ht
    subst ht
    simp only [JSVal.isJSON, Bool.and_eq_true] at hj
    have h1 := R gap (ind + gap) hj.1
    have h2 := bracket_length '{' '}' gap ind (serializeMembers gap (ind + gap) fs)
    simp only [JSVal.size]
    omega
  · intro gap ind _
    simp [sizeList]
  · intro x xs P Q gap ind hj
    simp only [allJSON, Bool.and_eq_true] at hj
    obtain ⟨tx, htx⟩ := serialize_isSome gap ind x hj.1
    rw [serializeElems_cons gap ind x xs tx htx]
    have h1 := P gap ind tx hj.1 htx
    have h2 := Q gap ind hj.2
    simp only [sizeList, totalLength, List.map_cons, List.sum_cons] at h2 ⊢
    omega
  · intro gap ind _
    simp [sizeFields]
  · intro k v fs P R gap ind hj
    simp only [fieldsJSON, Bool.and_eq_true] at hj
    obtain ⟨tv, htv⟩ := serialize_isSome gap ind v hj.1
    obtain ⟨ws, -, hparts⟩ := serializeMembers_cons gap ind k v fs tv htv
    rw [hparts]
    have h1 := P gap ind tv hj.1 htv
    have h2 := R gap ind hj.2
    simp only [sizeFields, totalLength, List.map_cons, List.sum_cons, List.length_cons,
      List.length_append] at h2 ⊢
    omega

/-- `JSON.parse` reads back every JSON value from its serialization, compact or
indented. -/
theorem parse_serialize (v : JSVal) (h : v.isJSON = true) (gap : Nat) :
    ∃ t, serialize gap 0 v = some t ∧ t ≠ [] ∧ JSON.parse (String.mk t) = some v := by
  obtain ⟨t, ht⟩ := serialize_isSome gap 0 v h
  have hlen := size_le_length_all.1 v gap 0 t h ht
  have hp := parse_serialize_all.1 v gap 0 t (t.length + 1) [] h ht (by omega) rfl
  obtain ⟨c, t', e, -⟩ := serialize_head gap 0 v t ht
  refine ⟨t, ht, by rw [e]; simp, ?_⟩
  rw [List.append_nil] at hp
  simp [JSON.parse, String.length, hp, skipWs]

theorem parse_stringifyPretty (v : JSVal) (h : v.isJSON = true) (space : Nat) :
    ∃ text, JSON.stringifyPretty v space = some text ∧ JSON.parse text = some v := by
  obtain ⟨t, ht, -, hp⟩ := parse_serialize v h (min space 10)
  exact ⟨String.mk t, by simp [JSON.stringifyPretty, ht], hp⟩

/-! ## The collections of the store are JSON values

The seed is JSON, `JSON.parse` returns JSON values only, and the operations keep the
collections JSON when the patches they are given are: the collections that the
round trip of export and import is stated for are the ones the store holds. -/

theorem isJSON_or (a b : JSVal) (hb : b.isJSON = true) (ha : a.isJSON = true ∨ a = .undefined) :
    (a.or b).isJSON = true := by
  rcases ha with ha | rfl
  · simp only [JSVal.or]
    split_ifs
    · exact ha
    · exact hb
  · simpa [JSVal.or, JSVal.truthy] using hb

theorem fieldsJSON_iff (fs : List (String × JSVal)) :
    fieldsJSON fs = true ↔ ∀ kv ∈ fs, kv.2.isJSON = true := by
  induction fs with
  | nil => simp [fieldsJSON]
  | cons kv fs ih =>
    obtain ⟨k, v⟩ := kv
    simp [fieldsJSON, ih]

theorem allJSON_iff (xs : List JSVal) : allJSON xs = true ↔ ∀ x ∈ xs, x.isJSON = true := by
  induction xs with
  | nil => simp [allJSON]
  | cons x xs ih => simp [allJSON, ih]

theorem getField_isJSON (fs : List (String × JSVal)) (k : String) (h : fieldsJSON fs = true) :
    (getField fs k).isJSON = true ∨ getField fs k = .undefined := by
  induction fs using List.reverseRecOn with
  | nil => exact Or.inr rfl
  | append_singleton fs kv ih =>
    obtain ⟨k', v⟩ := kv
    rw [fieldsJSON_iff] at h
    rw [getField_append_singleton]
    split_ifs
    · exact Or.inl (h (k', v) (by simp))
    · exact ih ((fieldsJSON_iff fs).2 (fun kv hkv => h kv (by simp [hkv])))

theorem keys_setField (fs : List (String × JSVal)) (k : String) (v : JSVal) :
    (setField fs k v).map Prod.fst
      = if hasField fs k then fs.map Prod.fst else fs.map Prod.fst ++ [k] := by
  unfold setField
  split_ifs
  · rw [List.map_map]
    apply List.map_congr_left
    intro kv _
    by_cases h : kv.1 = k <;> simp [h]
  · simp

theorem setField_wellFormed (fs : List (String × JSVal)) (k : String) (v : JSVal)
    (hv : v.isJSON = true) (h1 : fieldsJSON fs = true) (h2 : (fs.map Prod.fst).Nodup) :
    fieldsJSON (setField fs k v) = true ∧ ((setField fs k v).map Prod.fst).Nodup := by
  constructor
  · rw [fieldsJSON_iff] at h1 ⊢
    intro kv hkv
    unfold setField at hkv
    split_ifs at hkv
    · obtain ⟨kv', hm, e⟩ := List.mem_map.1 hkv
      by_cases hk : kv'.1 = k
      · rw [if_pos hk] at e; rw [← e]; exact hv
      · rw [if_neg hk] at e; rw [← e]; exact h1 kv' hm
    · rcases List.mem_append.1 hkv with hm | hm
      · exact h1 kv hm
      · simp only [List.mem_singleton] at hm
        rw [hm]; exact hv
  · rw [keys_setField]
    by_cases hk : hasField fs k = true
    · rw [if_pos hk]; exact h2
    · rw [if_neg hk]
      have := (hasField_eq_false_iff fs k).1 (by simpa using hk)
      exact List.Nodup.append h2 (List.nodup_singleton k) (by simpa using this)

theorem foldl_setField_wellFormed (es acc : List (String × JSVal))
    (he : ∀ kv ∈ es, kv.2.isJSON = true) (h1 : fieldsJSON acc = true)
    (h2 : (acc.map Prod.fst).Nodup) :
    (JSVal.obj (es.foldl (fun a kv => setField a kv.1 kv.2) acc)).isJSON = true := by
  induction es generalizing acc with
  | nil => simp [JSVal.isJSON, h1, h2]
  | cons kv es ih =>
    obtain ⟨h3, h4⟩ := setField_wellFormed acc kv.1 kv.2 (he kv (List.mem_cons_self _ _)) h1 h2
    exact ih _ (fun x hx => he x (List.mem_cons_of_mem _ hx)) h3 h4

theorem parseNumber_isJSON (cs rest : List Char) (v : JSVal)
    (h : parseNumber cs = some (v, rest)) : v.isJSON = true := by
  cases cs with
  | nil => simp [parseNumber] at h
  | cons c cs =>
    simp only [parseNumber] at h
    split_ifs at h
    · split at h
      · split_ifs at h
        simp only [Option.some.injEq, Prod.mk.injEq] at h
        rw [← h.1]; rfl
      · cases h
    · split at h
      · split_ifs at h
        simp only [Option.some.injEq, Prod.mk.injEq] at h
        rw [← h.1]; rfl
      · cases h

theorem parseElems_isJSON (pv : List Char → Option (JSVal × List Char))
    (hpv : ∀ cs v rest, pv cs = some (v, rest) → v.isJSON = true) :
    ∀ (n : Nat) (cs : List Char) (xs : List JSVal) (rest : List Char),
      parseElems pv n cs = some (xs, rest) → allJSON xs = true := by
  intro n
  induction n with
  | zero => intro cs xs rest h; simp [parseElems] at h
  | succ n ih =>
    intro cs xs rest h
    simp only [parseElems] at h
    split at h
    · cases h
    · rename_i v r1 hv
      split at h
      · cases h
      · split_ifs at h
        · simp only [Option.map_eq_some', Prod.mk.injEq, Prod.exists] at h
          obtain ⟨a, b, hrec, rfl, -⟩ := h
          simp [allJSON, hpv _ _ _ hv, ih _ a b hrec]
        · simp only [Option.some.injEq, Prod.mk.injEq] at h
          rw [← h.1]
          simp [allJSON, hpv _ _ _ hv]

theorem parseMembers_isJSON (pv : List Char → Option (JSVal × List Char))
    (hpv : ∀ cs v rest, pv cs = some (v, rest) → v.isJSON = true) :
    ∀ (n : Nat) (cs : List Char) (fs : List (String × JSVal)) (rest : List Char),
      parseMembers pv n cs = some (fs, rest) → ∀ kv ∈ fs, kv.2.isJSON = true := by
  intro n
  induction n with
  | zero => intro cs fs rest h; simp [parseMembers] at h
  | succ n ih =>
    intro cs fs rest h
    simp only [parseMembers] at h
    split at h
    · cases h
    · split_ifs at h
      split at h
      · cases h
      · split at h
        · cases h
        · split_ifs at h
          split at h
          · cases h
          · rename_i v r3 hv
            split at h
            · cases h
            · split_ifs at h
              · simp only [Option.map_eq_some', Prod.mk.injEq, Prod.exists] at h
                obtain ⟨a, b, hrec, rfl, -⟩ := h
                intro kv hkv
                rcases List.mem_cons.1 hkv with e | hm
                · rw [e]; exact hpv _ _ _ hv
                · exact ih _ a b hrec kv hm
              · simp only [Option.some.injEq, Prod.mk.injEq] at h
                rw [← h.1]
                intro kv hkv
                simp only [List.mem_singleton] at hkv
                rw [hkv]; exact hpv _ _ _ hv

theorem parseValue_isJSON : ∀ (fuel : Nat) (cs : List Char) (v : JSVal) (rest : List Char),
    parseValue fuel cs = some (v, rest) → v.isJSON = true := by
  intro fuel
  induction fuel with
  | zero => intro cs v rest h; simp [parseValue] at h
  | succ f ih =>
    intro cs v rest h
    simp only [parseValue] at h
    split at h
    · cases h
    · split_ifs at h
      · simp only [Option.some.injEq, Prod.mk.injEq] at h; rw [← h.1]; rfl
      · simp only [Option.some.injEq, Prod.mk.injEq] at h; rw [← h.1]; rfl
      · simp only [Option.some.injEq, Prod.mk.injEq] at h; rw [← h.1]; rfl
      · simp only [Option.map_eq_some', Prod.mk.injEq, Prod.exists] at h
        obtain ⟨a, b, -, rfl, -⟩ := h
        rfl
      · split at h
        · cases h
        · split_ifs at h
          · simp only [Option.some.injEq, Prod.mk.injEq] at h; rw [← h.1]; rfl
          · simp only [Option.map_eq_some', Prod.mk.injEq, Prod.exists] at h
            obtain ⟨a, b, he, rfl, -⟩ := h
            simp only [JSVal.isJSON]
            exact parseElems_isJSON _ ih f _ a b he
      · split at h
        · cases h
        · split_ifs at h
          · simp only [Option.some.injEq, Prod.mk.injEq] at h; rw [← h.1]; rfl
          · simp only [Option.map_eq_some', Prod.mk.injEq, Prod.exists] at h
            obtain ⟨a, b, he, rfl, -⟩ := h
            exact foldl_setField_wellFormed a []
              (parseMembers_isJSON _ ih f _ a b he) rfl (by simp)
      · exact parseNumber_isJSON _ _ _ h

/-- Every value `JSON.parse` returns is a JSON value. -/
theorem parse_isJSON (text : String) (v : JSVal) (h : JSON.parse text = some v) :
    v.isJSON = true := by
  simp only [JSON.parse] at h
  split at h
  · rename_i v' rest hv
    split_ifs at h
    simp only [Option.some.injEq] at h
    rw [← h]
    exact parseValue_isJSON _ _ _ _ hv
  · cases h

theorem getProp_isJSON (p : JSVal) (k : String) (v : JSVal) (hp : p.isJSON = true)
    (h : getProp p k = .ok v) : v.isJSON = true ∨ v = .undefined := by
  cases p with
  | obj fs =>
    simp only [getProp, Except.ok.injEq] at h
    rw [← h]
    simp only [JSVal.isJSON, Bool.and_eq_true] at hp
    exact getField_isJSON fs k hp.1
  | undefined => simp [getProp] at h
  | null => simp [getProp] at h
  | bool b => simp only [getProp, Except.ok.injEq] at h; exact Or.inr h.symm
  | num n => simp only [getProp, Except.ok.injEq] at h; exact Or.inr h.symm
  | str s => simp only [getProp, Except.ok.injEq] at h; exact Or.inr h.symm
  | arr xs => simp only [getProp, Except.ok.injEq] at h; exact Or.inr h.symm

theorem isJSON_of_truthy (v : JSVal) (h : v.isJSON = true ∨ v = .undefined)
    (ht : v.truthy = true) : v.isJSON = true := by
  rcases h with h | rfl
  · exact h
  · simp [JSVal.truthy] at ht

theorem defaultEmpty_isJSON (p : JSVal) (h : p.isJSON = true ∨ p = .undefined) :
    (defaultEmpty p).isJSON = true := by
  rcases h with h | rfl
  · cases p <;> first | exact h | simp [JSVal.isJSON] at h
  · rfl

theorem spreadIterable_isJSON (v : JSVal) (xs : List JSVal) (hv : v.isJSON = true)
    (h : spreadIterable v = .ok xs) : allJSON xs = true := by
  cases v with
  | arr ys =>
    simp only [spreadIterable, Except.ok.injEq] at h
    rw [← h]; exact hv
  | str s =>
    simp only [spreadIterable, Except.ok.injEq] at h
    rw [← h, allJSON_iff]
    intro x hx
    obtain ⟨c, -, rfl⟩ := List.mem_map.1 hx
    rfl
  | undefined => simp [spreadIterable] at h
  | null => simp [spreadIterable] at h
  | bool b => simp [spreadIterable] at h
  | num n => simp [spreadIterable] at h
  | obj fs => simp [spreadIterable] at h

theorem ownEntries_isJSON (v : JSVal) (hv : v.isJSON = true ∨ v = .undefined) :
    ∀ kv ∈ ownEntries v, kv.2.isJSON = true := by
  intro kv hkv
  cases v with
  | obj fs =>
    rcases hv with hv | hv
    · simp only [JSVal.isJSON, Bool.and_eq_true] at hv
      exact (fieldsJSON_iff fs).1 hv.1 kv hkv
    · cases hv
  | arr xs =>
    rcases hv with hv | hv
    · simp only [ownEntries, List.mem_map] at hkv
      obtain ⟨p, hp, rfl⟩ := hkv
      simp only [JSVal.isJSON] at hv
      exact (allJSON_iff xs).1 hv p.2 (List.snd_mem_of_mem_enum hp)
    · cases hv
  | str s =>
    simp only [ownEntries, List.mem_map] at hkv
    obtain ⟨p, -, rfl⟩ := hkv
    rfl
  | undefined => simp [ownEntries] at hkv
  | null => simp [ownEntries] at hkv
  | bool b => simp [ownEntries] at hkv
  | num n => simp [ownEntries] at hkv

theorem objectSpread_isJSON (a b : JSVal) (ha : a.isJSON = true)
    (hb : b.isJSON = true ∨ b = .undefined) : (objectSpread a b).isJSON = true := by
  apply foldl_setField_wellFormed _ [] _ rfl (by simp)
  intro kv hkv
  rcases List.mem_append.1 hkv with h | h
  · exact ownEntries_isJSON a (Or.inl ha) kv h
  · exact ownEntries_isJSON b hb kv h

theorem mapExcept_forall {α β : Type} (f : α → Except JSError β) (P : β → Prop) :
    ∀ (xs : List α) (ys : List β), (∀ a ∈ xs, ∀ b, f a = .ok b → P b) →
      mapExcept f xs = .ok ys → ∀ b ∈ ys, P b := by
  intro xs
  induction xs with
  | nil =>
    intro ys _ h b hb
    simp only [mapExcept, Except.ok.injEq] at h
    rw [← h] at hb; cases hb
  | cons a xs ih =>
    intro ys hf h b hb
    simp only [mapExcept] at h
    cases h1 : f a with
    | error e => simp [h1] at h
    | ok b1 =>
      cases h2 : mapExcept f xs with
      | error e => simp [h1, h2] at h
      | ok bs =>
        simp only [h1, h2, Except.ok.injEq] at h
        rw [← h] at hb
        rcases List.mem_cons.1 hb with e | hm
        · rw [e]; exact hf a (List.mem_cons_self _ _) b1 h1
        · exact ih bs (fun x hx => hf x (List.mem_cons_of_mem _ hx)) h2 b hm

theorem filterExcept_subset {α : Type} (f : α → Except JSError Bool) :
    ∀ (xs ys : List α), filterExcept f xs = .ok ys → ∀ y ∈ ys, y ∈ xs := by
  intro xs
  induction xs with
  | nil =>
    intro ys h y hy
    simp only [filterExcept, Except.ok.injEq] at h
    rw [← h] at hy; cases hy
  | cons a xs ih =>
    intro ys h y hy
    simp only [filterExcept] at h
    cases h1 : f a with
    | error e => simp [h1] at h
    | ok b1 =>
      cases h2 : filterExcept f xs with
      | error e => simp [h1, h2] at h
      | ok bs =>
        simp only [h1, h2, Except.ok.injEq] at h
        rw [← h] at hy
        cases b1 with
        | false => exact List.mem_cons_of_mem _ (ih bs h2 y (by simpa using hy))
        | true =>
          rcases List.mem_cons.1 (by simpa using hy) with e | hm
          · rw [e]; exact List.mem_cons_self _ _
          · exact List.mem_cons_of_mem _ (ih bs h2 y hm)

theorem mergeIfId_isJSON (id : String) (patch a b : JSVal) (ha : a.isJSON = true)
    (hp : patch.isJSON = true ∨ patch = .undefined) (h : mergeIfId id patch a = .ok b) :
    b.isJSON = true := by
  simp only [mergeIfId, bind, Except.bind] at h
  cases h1 : getProp a "id" with
  | error e => simp [h1] at h
  | ok v =>
    simp only [h1, pure, Except.pure, Except.ok.injEq] at h
    rw [← h]
    split_ifs
    · exact objectSpread_isJSON a patch ha hp
    · exact ha

theorem updated_isJSON (id : String) (patch coll : JSVal) (ys : List JSVal)
    (hc : coll.isJSON = true) (hp : patch.isJSON = true ∨ patch = .undefined) :
    ∀ xs, asArray coll = .ok xs → mapExcept (mergeIfId id patch) xs = .ok ys →
      (JSVal.arr ys).isJSON = true := by
  intro xs hx hm
  cases coll with
  | arr zs =>
    simp only [asArray, Except.ok.injEq] at hx
    subst hx
    simp only [JSVal.isJSON] at hc ⊢
    rw [allJSON_iff] at hc ⊢
    exact mapExcept_forall _ _ zs ys
      (fun a ha b hb => mergeIfId_isJSON id patch a b (hc a ha) hp hb) hm
  | undefined => simp [asArray] at hx
  | null => simp [asArray] at hx
  | bool b => simp [asArray] at hx
  | num n => simp [asArray] at hx
  | str s => simp [asArray] at hx
  | obj fs => simp [asArray] at hx

theorem removed_isJSON (id : String) (coll : JSVal) (ys : List JSVal)
    (hc : coll.isJSON = true) :
    ∀ xs, asArray coll = .ok xs → filterExcept (keepUnlessId id) xs = .ok ys →
      (JSVal.arr ys).isJSON = true := by
  intro xs hx hm
  cases coll with
  | arr zs =>
    simp only [asArray, Except.ok.injEq] at hx
    subst hx
    simp only [JSVal.isJSON] at hc ⊢
    rw [allJSON_iff] at hc ⊢
    exact fun y hy => hc y (filterExcept_subset _ zs ys hm y hy)
  | undefined => simp [asArray] at hx
  | null => simp [asArray] at hx
  | bool b => simp [asArray] at hx
  | num n => simp [asArray] at hx
  | str s => simp [asArray] at hx
  | obj fs => simp [asArray] at hx

theorem bind_eq_ok {α β : Type} (x : Except JSError α) (f : α → Except JSError β) (b : β) :
    (x >>= f) = .ok b ↔ ∃ a, x = .ok a ∧ f a = .ok b := by
  cases x <;> simp [bind, Except.bind]

theorem pure_eq_ok {α : Type} (a b : α) : (pure a : Except JSError α) = .ok b ↔ a = b := by
  simp [pure, Except.pure]

theorem createArticle_keeps_JSON (st st' : State) (msgs : List String) (now : Int)
    (today : String) (patch : JSVal) (hst : st.holdsJSON = true)
    (hp : patch.isJSON = true ∨ patch = .undefined)
    (h : createArticle st now today patch = .ok (st', msgs)) : st'.holdsJSON = true := by
  simp only [State.holdsJSON, Bool.and_eq_true] at hst
  simp only [createArticle] at h
  split_ifs at h
  · simp only [Except.ok.injEq, Prod.mk.injEq] at h
    rw [← h.1]; simpa [State.holdsJSON] using hst
  · simp only [bind_eq_ok, pure_eq_ok, Prod.mk.injEq] at h
    obtain ⟨t, h1, c, h2, e, h3, b, h4, s, h5, rfl, -⟩ := h
    have hd := defaultEmpty_isJSON patch hp
    have hs := spreadIterable_isJSON _ s hst.1 h5
    have ht := isJSON_or t (.str "Untitled Article") rfl (getProp_isJSON _ _ _ hd h1)
    have hc := isJSON_or c (.str (CATEGORIES.head (by decide))) rfl (getProp_isJSON _ _ _ hd h2)
    have he := isJSON_or e (.str "") rfl (getProp_isJSON _ _ _ hd h3)
    have hb := isJSON_or b (.str "") rfl (getProp_isJSON _ _ _ hd h4)
    simp only [State.holdsJSON, JSVal.isJSON, allJSON, fieldsJSON, ht, hc, he, hb, hs, hst.2,
      Bool.and_true, Bool.true_and, decide_eq_true_eq, List.map_cons, List.map_nil]
    decide

theorem createStaff_keeps_JSON (st st' : State) (msgs : List String) (now : Int)
    (patch : JSVal) (hst : st.holdsJSON = true)
    (hp : patch.isJSON = true ∨ patch = .undefined)
    (h : createStaff st now patch = .ok (st', msgs)) : st'.holdsJSON = true := by
  simp only [State.holdsJSON, Bool.and_eq_true] at hst
  simp only [createStaff] at h
  split_ifs at h
  · simp only [Except.ok.injEq, Prod.mk.injEq] at h
    rw [← h.1]; simpa [State.holdsJSON] using hst
  · simp only [bind_eq_ok, pure_eq_ok, Prod.mk.injEq] at h
    obtain ⟨n, h1, r, h2, a, h3, b, h4, bio, h5, c, h6, s, h7, rfl, -⟩ := h
    have hd := defaultEmpty_isJSON patch hp
    have hs := spreadIterable_isJSON _ s hst.2 h7
    have hn := isJSON_or n (.str "Unnamed") rfl (getProp_isJSON _ _ _ hd h1)
    have hr := isJSON_or r (.str "Contributor") rfl (getProp_isJSON _ _ _ hd h2)
    have ha := isJSON_or a (.str "https://i.pravatar.cc/150?img=50") rfl
      (getProp_isJSON _ _ _ hd h3)
    have hb := isJSON_or b (.str "https://picsum.photos/seed/staff/1200/300") rfl
      (getProp_isJSON _ _ _ hd h4)
    have hbio := isJSON_or bio (.str "") rfl (getProp_isJSON _ _ _ hd h5)
    have hc := isJSON_or c (.str "") rfl (getProp_isJSON _ _ _ hd h6)
    simp only [State.holdsJSON, JSVal.isJSON, allJSON, fieldsJSON, hn, hr, ha, hb, hbio, hc, hs,
      hst.1, Bool.and_true, Bool.true_and, decide_eq_true_eq, List.map_cons, List.map_nil]
    decide

theorem importSite_keeps_JSON (st : State) (content : String) (hst : st.holdsJSON = true) :
    (importSite st content).1.holdsJSON = true := by
  simp only [State.holdsJSON, Bool.and_eq_true] at hst
  simp only [importSite]
  cases hp : JSON.parse content with
  | none => simpa [State.holdsJSON] using hst
  | some parsed =>
    have hj := parse_isJSON content parsed hp
    simp only
    cases ha : getProp parsed "articles" with
    | error e => simpa [State.holdsJSON] using hst
    | ok a =>
      have haj := getProp_isJSON parsed _ a hj ha
      cases hb : getProp parsed "staff" with
      | error e =>
        simp only
        by_cases hat : a.truthy = true
        · simp [hat, State.holdsJSON, isJSON_of_truthy a haj hat, hst.2]
        · simpa [hat, State.holdsJSON] using hst
      | ok b =>
        have hbj := getProp_isJSON parsed _ b hj hb
        simp only
        by_cases hat : a.truthy = true <;> by_cases hbt : b.truthy = true
        · simp [hat, hbt, State.holdsJSON, isJSON_of_truthy a haj hat, isJSON_of_truthy b hbj hbt]
        · simp [hat, hbt, State.holdsJSON, isJSON_of_truthy a haj hat, hst.2]
        · simp [hat, hbt, State.holdsJSON, isJSON_of_truthy b hbj hbt, hst.1]
        · simpa [hat, hbt, State.holdsJSON] using hst

/-- The collections of the store are JSON values throughout: those of the seed are,
a value that `loadFromLocal` reads is one when the fallback is, and an import, a
create, an update (with a patch of JSON values) and a removal keep them so. -/
theorem store_holds_JSON (st st' : State) (msgs : List String) (hst : st.holdsJSON = true) :
    initialState.holdsJSON = true
    ∧ (∀ (s : Storage) (key : String) (fallback : JSVal), fallback.isJSON = true →
        (loadFromLocal s key fallback).isJSON = true)
    ∧ (∀ content, (importSite st content).1.holdsJSON = true)
    ∧ (∀ now today patch, (patch.isJSON = true ∨ patch = .undefined) →
        createArticle st now today patch = .ok (st', msgs) → st'.holdsJSON = true)
    ∧ (∀ now patch, (patch.isJSON = true ∨ patch = .undefined) →
        createStaff st now patch = .ok (st', msgs) → st'.holdsJSON = true)
    ∧ (∀ id patch, (patch.isJSON = true ∨ patch = .undefined) →
        updateArticle st id patch = .ok (st', msgs) → st'.holdsJSON = true)
    ∧ (∀ id patch, (patch.isJSON = true ∨ patch = .undefined) →
        updateStaff st id patch = .ok (st', msgs) → st'.holdsJSON = true)
    ∧ (∀ confirmed id, removeArticle st confirmed id = .ok (st', msgs) → st'.holdsJSON = true)
    ∧ (∀ confirmed id, removeStaff st confirmed id = .ok (st', msgs) → st'.holdsJSON = true) := by
  have hst' := hst
  simp only [State.holdsJSON, Bool.and_eq_true] at hst
  refine ⟨by decide, ?_, fun content => importSite_keeps_JSON st content hst',
    fun now today patch hp h => createArticle_keeps_JSON st st' msgs now today patch hst' hp h,
    fun now patch hp h => createStaff_keeps_JSON st st' msgs now patch hst' hp h, ?_, ?_, ?_, ?_⟩
  · intro s key fallback hf
    simp only [loadFromLocal]
    split
    · exact hf
    · split_ifs
      · exact hf
      · split
        · rename_i v hv
          exact parse_isJSON _ v hv
        · exact hf
  · intro id patch hp h
    simp only [updateArticle] at h
    split_ifs at h
    · simp only [Except.ok.injEq, Prod.mk.injEq] at h
      rw [← h.1]; exact hst'
    · simp only [bind_eq_ok, pure_eq_ok, Prod.mk.injEq] at h
      obtain ⟨xs, h1, ys, h2, rfl, -⟩ := h
      simp [State.holdsJSON, updated_isJSON id patch _ ys hst.1 hp xs h1 h2, hst.2]
  · intro id patch hp h
    simp only [updateStaff] at h
    split_ifs at h
    · simp only [Except.ok.injEq, Prod.mk.injEq] at h
      rw [← h.1]; exact hst'
    · simp only [bind_eq_ok, pure_eq_ok, Prod.mk.injEq] at h
      obtain ⟨xs, h1, ys, h2, rfl, -⟩ := h
      simp [State.holdsJSON, updated_isJSON id patch _ ys hst.2 hp xs h1 h2, hst.1]
  · intro confirmed id h
    simp only [removeArticle] at h
    split_ifs at h
    · simp only [Except.ok.injEq, Prod.mk.injEq] at h
      rw [← h.1]; exact hst'
    · simp only [Except.ok.injEq, Prod.mk.injEq] at h
      rw [← h.1]; exact hst'
    · simp only [bind_eq_ok, pure_eq_ok, Prod.mk.injEq] at h
      obtain ⟨xs, h1, ys, h2, rfl, -⟩ := h
      simp [State.holdsJSON, removed_isJSON id _ ys hst.1 xs h1 h2, hst.2]
  · intro confirmed id h
    simp only [removeStaff] at h
    split_ifs at h
    · simp only [Except.ok.injEq, Prod.mk.injEq] at h
      rw [← h.1]; exact hst'
    · simp only [Except.ok.injEq, Prod.mk.injEq] at h
      rw [← h.1]; exact hst'
    · simp only [bind_eq_ok, pure_eq_ok, Prod.mk.injEq] at h
      obtain ⟨xs, h1, ys, h2, rfl, -⟩ := h
      simp [State.holdsJSON, removed_isJSON id _ ys hst.2 xs h1 h2, hst.1]

/-! ## Lemmas on the operations of the store -/

theorem mapExcept_objects (g : List (String × JSVal) → JSVal) (f : JSVal → Except JSError JSVal)
    (xs : List (List (String × JSVal))) (h : ∀ fs, f (.obj fs) = .ok (g fs)) :
    mapExcept f (xs.map .obj) = .ok (xs.map g) := by
  induction xs with
  | nil => rfl
  | cons fs xs ih => simp [mapExcept, h, ih]

theorem filterExcept_objects (p : List (String × JSVal) → Bool) (f : JSVal → Except JSError Bool)
    (xs : List (List (String × JSVal))) (h : ∀ fs ∈ xs, f (.obj fs) = .ok (p fs)) :
    filterExcept f (xs.map .obj) = .ok ((xs.filter p).map .obj) := by
  induction xs with
  | nil => rfl
  | cons fs xs ih =>
    have h1 := h fs (List.mem_cons_self _ _)
    have h2 := ih (fun gs hg => h gs (List.mem_cons_of_mem _ hg))
    simp only [List.map_cons, filterExcept, h1, h2, List.filter_cons]
    cases p fs <;> simp

theorem updateArticle_objects (route : String) (xs : List (List (String × JSVal)))
    (staff user : JSVal) (id : String) (patch : JSVal) (h : user.truthy = true) :
    updateArticle ⟨route, .arr (xs.map .obj), staff, user⟩ id patch
      = .ok (⟨route, .arr (xs.map (patchRecord id patch)), staff, user⟩, []) := by
  have hm := mapExcept_objects (patchRecord id patch) (mergeIfId id patch) xs (fun fs => rfl)
  simp only [updateArticle, h, asArray, Bool.not_true, Bool.false_eq_true, if_false, bind,
    Except.bind, hm]
  rfl

theorem updateStaff_objects (route : String) (articles : JSVal)
    (ys : List (List (String × JSVal))) (user : JSVal) (id : String) (patch : JSVal)
    (h : user.truthy = true) :
    updateStaff ⟨route, articles, .arr (ys.map .obj), user⟩ id patch
      = .ok (⟨route, articles, .arr (ys.map (patchRecord id patch)), user⟩, []) := by
  have hm := mapExcept_objects (patchRecord id patch) (mergeIfId id patch) ys (fun fs => rfl)
  simp only [updateStaff, h, asArray, Bool.not_true, Bool.false_eq_true, if_false, bind,
    Except.bind, hm]
  rfl

theorem removeArticle_objects (route : String) (xs : List (List (String × JSVal)))
    (staff user : JSVal) (id : String) (h : user.truthy = true) :
    removeArticle ⟨route, .arr (xs.map .obj), staff, user⟩ true id
      = .ok (⟨"docs", .arr ((xs.filter (fun fs => !(getField fs "id").strictEqStr id)).map .obj),
          staff, user⟩, []) := by
  have hm := filterExcept_objects (fun fs => !(getField fs "id").strictEqStr id)
    (keepUnlessId id) xs (fun fs _ => rfl)
  simp only [removeArticle, h, asArray, Bool.not_true, Bool.false_eq_true, if_false, bind,
    Except.bind, hm]
  rfl

theorem removeStaff_objects (route : String) (articles : JSVal)
    (ys : List (List (String × JSVal))) (user : JSVal) (id : String) (h : user.truthy = true) :
    removeStaff ⟨route, articles, .arr (ys.map .obj), user⟩ true id
      = .ok (⟨"staff", articles,
          .arr ((ys.filter (fun fs => !(getField fs "id").strictEqStr id)).map .obj), user⟩, []) := by
  have hm := filterExcept_objects (fun fs => !(getField fs "id").strictEqStr id)
    (keepUnlessId id) ys (fun fs _ => rfl)
  simp only [removeStaff, h, asArray, Bool.not_true, Bool.false_eq_true, if_false, bind,
    Except.bind, hm]
  rfl

theorem patchRecord_absent (id : String) (patch : JSVal) (xs : List (List (String × JSVal)))
    (h : ∀ fs ∈ xs, getField fs "id" ≠ .str id) :
    xs.map (patchRecord id patch) = xs.map .obj := by
  apply List.map_congr_left
  intro fs hfs
  have := (strictEqStr_eq_false_iff _ _).2 (h fs hfs)
  simp [patchRecord, this]

theorem filter_absent (id : String) (xs : List (List (String × JSVal)))
    (h : ∀ fs ∈ xs, getField fs "id" ≠ .str id) :
    xs.filter (fun fs => !(getField fs "id").strictEqStr id) = xs := by
  apply List.filter_eq_self.2
  intro fs hfs
  have := (strictEqStr_eq_false_iff _ _).2 (h fs hfs)
  simp [this]

theorem patchRecord_patchedBy (id : String) (pf : List (String × JSVal))
    (xs : List (List (String × JSVal))) :
    ∃ xs', xs.map (patchRecord id (.obj pf)) = xs'.map .obj
      ∧ List.Forall₂ (PatchedBy id pf) xs xs' := by
  induction xs with
  | nil => exact ⟨[], rfl, List.Forall₂.nil⟩
  | cons fs xs ih =>
    obtain ⟨xs', h1, h2⟩ := ih
    by_cases hid : getField fs "id" = .str id
    · obtain ⟨gs, hgs, -⟩ := getField_objectSpread fs pf "id"
      refine ⟨gs :: xs', ?_, List.Forall₂.cons ⟨fun _ k => ?_, fun hne => absurd hid hne⟩ h2⟩
      · have := (strictEqStr_eq_true_iff _ _).2 hid
        simp [patchRecord, this, hgs, h1]
      · obtain ⟨gs', hgs', h3, h4⟩ := getField_objectSpread fs pf k
        rw [hgs] at hgs'
        cases hgs'
        exact ⟨h3, h4⟩
    · refine ⟨fs :: xs', ?_, List.Forall₂.cons ⟨fun h => absurd h hid, fun _ => rfl⟩ h2⟩
      have := (strictEqStr_eq_false_iff _ _).2 hid
      simp [patchRecord, this, h1]

theorem patchedBy_ids (id : String) (pf : List (String × JSVal))
    (hpf : hasField pf "id" = false) (xs xs' : List (List (String × JSVal)))
    (h : List.Forall₂ (PatchedBy id pf) xs xs') :
    xs'.map (fun fs => getField fs "id") = xs.map (fun fs => getField fs "id") := by
  induction h with
  | nil => rfl
  | @cons a b l1 l2 hab _ ih =>
    simp only [List.map_cons, ih, List.cons.injEq, and_true]
    by_cases hid : getField a "id" = .str id
    · have := (hab.1 hid "id").1
      rw [hpf] at this
      simpa using this
    · rw [hab.2 hid]

theorem createArticle_object (route : String) (xs : List JSVal) (staff user : JSVal)
    (now : Int) (today : String) (pf : List (String × JSVal)) (h : user.truthy = true) :
    createArticle ⟨route, .arr xs, staff, user⟩ now today (.obj pf)
      = .ok (⟨"article:" ++ ("art-" ++ numberToString now),
          .arr (.obj [("id", .str ("art-" ++ numberToString now)),
                      ("title", (getField pf "title").or (.str "Untitled Article")),
                      ("category", (getField pf "category").or (.str "Security Breaches")),
                      ("excerpt", (getField pf "excerpt").or (.str "")),
                      ("content", (getField pf "content").or (.str "")),
                      ("date", .str today)] :: xs),
          staff, user⟩, []) := by
  simp only [createArticle, h, defaultEmpty, getProp, spreadIterable, bind, Except.bind, pure,
    Except.pure, Bool.not_true, Bool.false_eq_true, if_false]
  rfl

theorem createStaff_object (route : String) (articles : JSVal) (ys : List JSVal) (user : JSVal)
    (now : Int) (pf : List (String × JSVal)) (h : user.truthy = true) :
    createStaff ⟨route, articles, .arr ys, user⟩ now (.obj pf)
      = .ok (⟨"profile:" ++ ("staff-" ++ numberToString now), articles,
          .arr (.obj [("id", .str ("staff-" ++ numberToString now)),
                      ("name", (getField pf "name").or (.str "Unnamed")),
                      ("role", (getField pf "role").or (.str "Contributor")),
                      ("avatar", (getField pf "avatar").or (.str "https://i.pravatar.cc/150?img=50")),
                      ("banner", (getField pf "banner").or
                        (.str "https://picsum.photos/seed/staff/1200/300")),
                      ("bio", (getField pf "bio").or (.str "")),
                      ("contact", (getField pf "contact").or (.str ""))] :: ys),
          user⟩, []) := by
  simp only [createStaff, h, defaultEmpty, getProp, spreadIterable, bind, Except.bind, pure,
    Except.pure, Bool.not_true, Bool.false_eq_true, if_false]

theorem numberToString_injective : Function.Injective numberToString := by
  intro a b h
  have hd : intChars a = intChars b := congrArg String.data h
  have ha := parseNumber_intChars a [] rfl
  have hb := parseNumber_intChars b [] rfl
  rw [hd, hb] at ha
  simp only [Option.some.injEq, Prod.mk.injEq, JSVal.num.injEq, and_true] at ha
  exact ha.symm

theorem idString_injective (pre : String) :
    Function.Injective (fun t : Int => JSVal.str (pre ++ numberToString t)) := by
  intro a b h
  simp only [JSVal.str.injEq] at h
  have hd := congrArg String.data h
  simp only [String.data_append] at hd
  have := List.append_cancel_left hd
  exact numberToString_injective (String.ext this)

theorem runAll_ids (mk : Int → JSVal) (hinj : Function.Injective mk)
    (op : State → Int → Except JSError Outcome) (coll : State → JSVal)
    (hop : ∀ st now zs, coll st = .arr zs → st.user.truthy = true →
      ∃ st' a, op st now = .ok (st', []) ∧ coll st' = .arr (a :: zs) ∧ idOf a = mk now
        ∧ st'.user = st.user) :
    ∀ (nows : List Int) (st : State) (zs : List JSVal), coll st = .arr zs →
      st.user.truthy = true → nows.Nodup → (collectionIds (.arr zs)).Nodup →
      (∀ t ∈ nows, mk t ∉ collectionIds (.arr zs)) →
      ∃ st', runAll op st nows = .ok st'
        ∧ collectionIds (coll st') = nows.reverse.map mk ++ collectionIds (.arr zs)
        ∧ (collectionIds (coll st')).Nodup := by
  intro nows
  induction nows with
  | nil =>
    intro st zs hc _ _ hz _
    exact ⟨st, rfl, by simp [hc], by rw [hc]; exact hz⟩
  | cons t ts ih =>
    intro st zs hc hu hn hz hfresh
    obtain ⟨st1, a, h1, h2, h3, h4⟩ := hop st t zs hc hu
    have hn' := List.nodup_cons.1 hn
    have hids : collectionIds (.arr (a :: zs)) = mk t :: collectionIds (.arr zs) := by
      simp [collectionIds, h3]
    obtain ⟨st', r1, r2, r3⟩ := ih st1 (a :: zs) h2 (by rw [h4]; exact hu) hn'.2
      (by
        rw [hids]
        exact List.nodup_cons.2 ⟨hfresh t (List.mem_cons_self _ _), hz⟩)
      (by
        intro t' ht'
        rw [hids]
        intro hmem
        rcases List.mem_cons.1 hmem with e | hmem
        · have := hinj e
          subst this
          exact hn'.1 ht'
        · exact hfresh t' (List.mem_cons_of_mem _ ht') hmem)
    refine ⟨st', ?_, ?_, r3⟩
    · simp only [runAll, h1]
      exact r1
    · rw [r2, hids]
      simp

theorem startsWith_iff (s q : List Char) : startsWith s q = true ↔ q <+: s := by
  induction s generalizing q with
  | nil => cases q <;> simp [startsWith]
  | cons c s ih =>
    cases q with
    | nil => simp [startsWith]
    | cons d q =>
      simp only [startsWith, Bool.and_eq_true, beq_iff_eq, ih, List.cons_prefix_cons]
      constructor
      · rintro ⟨rfl, h⟩; exact ⟨rfl, h⟩
      · rintro ⟨rfl, h⟩; exact ⟨rfl, h⟩

theorem includesChars_iff (s q : List Char) : includesChars s q = true ↔ q <:+: s := by
  induction s with
  | nil =>
    simp only [includesChars, startsWith_iff, List.infix_nil, List.prefix_nil]
  | cons c s ih =>
    simp only [includesChars, Bool.or_eq_true, startsWith_iff, ih, List.infix_cons_iff]

theorem includes_eq_decide (s q : String) : includes s q = decide (q.data <:+: s.data) := by
  rw [Bool.eq_iff_iff]
  simp [includes, includesChars_iff]

theorem filterMatch_object (lower : String → String) (category query : String)
    (fs : List (String × JSVal)) (h : hasTexts fs) :
    filterMatch lower category (lower (trim query)) (.obj fs)
      = .ok (specMatches lower category query fs) := by
  obtain ⟨t, e, c, ht, he, hc⟩ := h
  have hcat : (getField fs "category").strictEqStr category
      = (getField fs "category" == JSVal.str category) := by
    rw [Bool.eq_iff_iff, strictEqStr_eq_true_iff]; simp
  simp only [filterMatch, specMatches, fieldContains, getProp, ht, he, hc, includes_eq_decide,
    bind, Except.bind, pure, Except.pure, hcat]
  by_cases h1 : (category == "All") = true <;> by_cases h2 : (lower (trim query) == "") = true
    <;> by_cases h3 : (lower (trim query)).data <:+: (lower t).data
    <;> by_cases h4 : (lower (trim query)).data <:+: (lower e).data
    <;> simp [h1, h2, h3, h4]

theorem importSite_of_object (st : State) (content : String) (fs : List (String × JSVal))
    (hp : JSON.parse content = some (.obj fs)) :
    importSite st content
      = (⟨st.route,
          if (getField fs "articles").truthy then getField fs "articles" else st.articles,
          if (getField fs "staff").truthy then getField fs "staff" else st.staff,
          st.user⟩, ["Import successful."]) := by
  simp only [importSite, hp, getProp]
  by_cases ha : (getField fs "articles").truthy = true
    <;> by_cases hb : (getField fs "staff").truthy = true <;> simp [ha, hb]

/-- C1. While nobody is logged in (`user` is `null`), each of `createArticle`,
`updateArticle`, `removeArticle`, `createStaff`, `updateStaff` and `removeStaff`
returns the state it was given, so both collections are unchanged, and shows its
login-required message; whatever the collections, the id, the patch, the clock and
the answer to the confirmation are. -/
theorem anonymous_mutations_rejected (route : String) (articles staff : JSVal) (id : String)
    (patch : JSVal) (confirmed : Bool) (now : Int) (today : String) :
    createArticle ⟨route, articles, staff, .null⟩ now today patch
        = .ok (⟨route, articles, staff, .null⟩, ["Login required to create article."])
    ∧ updateArticle ⟨route, articles, staff, .null⟩ id patch
        = .ok (⟨route, articles, staff, .null⟩, ["Login required to edit article."])
    ∧ removeArticle ⟨route, articles, staff, .null⟩ confirmed id
        = .ok (⟨route, articles, staff, .null⟩, ["Login required to delete article."])
    ∧ createStaff ⟨route, articles, staff, .null⟩ now patch
        = .ok (⟨route, articles, staff, .null⟩, ["Login required to add staff."])
    ∧ updateStaff ⟨route, articles, staff, .null⟩ id patch
        = .ok (⟨route, articles, staff, .null⟩, ["Login required to edit staff."])
    ∧ removeStaff ⟨route, articles, staff, .null⟩ confirmed id
        = .ok (⟨route, articles, staff, .null⟩, ["Login required to remove staff."]) :=
  ⟨rfl, rfl, rfl, rfl, rfl, rfl⟩

/-- C2, counterexample. On the example of the specification, `[{title: "Breach"}, {title:
"Gang"}]` with the category `All` and the query `breach`, the filter returns no list:
the title of the second element does not match, so the callback goes on to
`a.excerpt.toLowerCase()`, and `a.excerpt` is `undefined`. -/
theorem filtered_spec_example_throws :
    filtered asciiLower
      (.arr [.obj [("title", .str "Breach")], .obj [("title", .str "Gang")]]) "All" "breach"
      = .error .typeError := by
  decide

/-- C2, amended. For every list of articles whose `title`, `excerpt` and `content` are
strings, every category and every query, `filtered` is the sublist, in the order
of the input, of the articles that the specification's condition selects:
the category is `All` or the article's, and the trimmed, lowercased query is empty
or a substring of the lowercased title, excerpt or content. This holds whatever
the case mapping `lower` is. -/
theorem filtered_eq_filter (lower : String → String) (xs : List (List (String × JSVal)))
    (category query : String) (h : ∀ fs ∈ xs, hasTexts fs) :
    filtered lower (.arr (xs.map .obj)) category query
      = .ok ((xs.filter (specMatches lower category query)).map .obj) := by
  have := filterExcept_objects (specMatches lower category query)
    (filterMatch lower category (lower (trim query))) xs
    (fun fs hfs => filterMatch_object lower category query fs (h fs hfs))
  simp only [filtered, asArray, bind, Except.bind, this]

/-- C2, amended: the example with complete records. On `[{title: "Breach", excerpt: "",
content: ""}, {title: "Gang", excerpt: "", content: ""}]` with the category `All` and the
query `breach` the result is the first element alone. -/
theorem filtered_eq_filter_witness :
    (∀ fs ∈ [[("title", JSVal.str "Breach"), ("excerpt", .str ""), ("content", .str "")],
             [("title", .str "Gang"), ("excerpt", .str ""), ("content", .str "")]],
        hasTexts fs)
    ∧ filtered asciiLower
        (.arr ([[("title", JSVal.str "Breach"), ("excerpt", .str ""), ("content", .str "")],
                [("title", .str "Gang"), ("excerpt", .str ""), ("content", .str "")]].map .obj))
        "All" "breach"
      = .ok (([[("title", JSVal.str "Breach"), ("excerpt", .str ""), ("content", .str "")],
               [("title", .str "Gang"), ("excerpt", .str ""), ("content", .str "")]].filter
                (specMatches asciiLower "All" "breach")).map .obj)
    ∧ filtered asciiLower
        (.arr ([[("title", JSVal.str "Breach"), ("excerpt", .str ""), ("content", .str "")],
                [("title", .str "Gang"), ("excerpt", .str ""), ("content", .str "")]].map .obj))
        "All" "breach"
      = .ok [.obj [("title", JSVal.str "Breach"), ("excerpt", .str ""), ("content", .str "")]] := by
  have hT : ∀ fs ∈ [[("title", JSVal.str "Breach"), ("excerpt", .str ""), ("content", .str "")],
             [("title", .str "Gang"), ("excerpt", .str ""), ("content", .str "")]],
        hasTexts fs := by
    intro fs hfs
    simp only [List.mem_cons, List.mem_singleton, List.not_mem_nil, or_false] at hfs
    rcases hfs with rfl | rfl
    · exact ⟨"Breach", "", "", by decide, by decide, by decide⟩
    · exact ⟨"Gang", "", "", by decide, by decide, by decide⟩
  exact ⟨hT, filtered_eq_filter asciiLower _ "All" "breach" hT, by decide⟩

/-- C3, counterexample. A patch that carries an `id` field changes the id of the
record it is merged into: after `updateArticle("a", {id: "b"})` the record that had
the id `a` has the id `b`, and no record has the id `a` any more. -/
theorem update_with_id_in_patch_changes_id :
    updateArticle ⟨"docs", .arr [.obj [("id", .str "a"), ("title", .str "T")]], .arr [],
        .obj [("name", .str "Admin")]⟩ "a" (.obj [("id", .str "b")])
      = .ok (⟨"docs", .arr [.obj [("id", .str "b"), ("title", .str "T")]], .arr [],
        .obj [("name", .str "Admin")]⟩, [])
    ∧ getField [("id", JSVal.str "b"), ("title", JSVal.str "T")] "id" ≠ .str "a" := by
  decide

/-- C3, amended. For every collection of records, every id and every patch object,
an authenticated `updateArticle(id, patch)` or `updateStaff(id, patch)` keeps the
length and the order of the collection and leaves the other collection alone; a
record with the id `id` takes from the patch every field the patch has (its `id`
field too, when the patch has one) and keeps every other field, and a record with
another id is unchanged. When the patch has no `id` field the ids of the
collection are what they were. -/
theorem update_merges_patch (route : String) (xs ys : List (List (String × JSVal)))
    (user : JSVal) (id : String) (pf : List (String × JSVal)) (h : user.truthy = true) :
    (∃ xs', updateArticle ⟨route, .arr (xs.map .obj), .arr (ys.map .obj), user⟩ id (.obj pf)
          = .ok (⟨route, .arr (xs'.map .obj), .arr (ys.map .obj), user⟩, [])
        ∧ List.Forall₂ (PatchedBy id pf) xs xs'
        ∧ (hasField pf "id" = false →
            xs'.map (fun fs => getField fs "id") = xs.map (fun fs => getField fs "id")))
    ∧ (∃ ys', updateStaff ⟨route, .arr (xs.map .obj), .arr (ys.map .obj), user⟩ id (.obj pf)
          = .ok (⟨route, .arr (xs.map .obj), .arr (ys'.map .obj), user⟩, [])
        ∧ List.Forall₂ (PatchedBy id pf) ys ys'
        ∧ (hasField pf "id" = false →
            ys'.map (fun fs => getField fs "id") = ys.map (fun fs => getField fs "id"))) := by
  constructor
  · obtain ⟨xs', h1, h2⟩ := patchRecord_patchedBy id pf xs
    refine ⟨xs', ?_, h2, fun hpf => patchedBy_ids id pf hpf xs xs' h2⟩
    rw [updateArticle_objects _ _ _ _ _ _ h, h1]
  · obtain ⟨ys', h1, h2⟩ := patchRecord_patchedBy id pf ys
    refine ⟨ys', ?_, h2, fun hpf => patchedBy_ids id pf hpf ys ys' h2⟩
    rw [updateStaff_objects _ _ _ _ _ _ h, h1]

/-- C3, amended: an instance. Logged in, `updateArticle("a", {title: "New"})` on the
collection `[{id: "a", title: "T"}, {id: "c", title: "U"}]`. -/
theorem update_merges_patch_witness :
    (JSVal.obj [("name", .str "Admin")]).truthy = true
    ∧ ((∃ xs', updateArticle ⟨"docs",
            .arr ([[("id", .str "a"), ("title", .str "T")],
                   [("id", .str "c"), ("title", .str "U")]].map .obj),
            .arr ([[("id", .str "staff-1")]].map .obj), .obj [("name", .str "Admin")]⟩
            "a" (.obj [("title", .str "New")])
          = .ok (⟨"docs", .arr (xs'.map .obj), .arr ([[("id", .str "staff-1")]].map .obj),
              .obj [("name", .str "Admin")]⟩, [])
        ∧ List.Forall₂ (PatchedBy "a" [("title", .str "New")])
            [[("id", .str "a"), ("title", .str "T")], [("id", .str "c"), ("title", .str "U")]] xs'
        ∧ (hasField [("title", JSVal.str "New")] "id" = false →
            xs'.map (fun fs => getField fs "id")
              = [[("id", JSVal.str "a"), ("title", JSVal.str "T")],
                 [("id", .str "c"), ("title", .str "U")]].map (fun fs => getField fs "id")))
      ∧ (∃ ys', updateStaff ⟨"docs",
            .arr ([[("id", .str "a"), ("title", .str "T")],
                   [("id", .str "c"), ("title", .str "U")]].map .obj),
            .arr ([[("id", .str "staff-1")]].map .obj), .obj [("name", .str "Admin")]⟩
            "a" (.obj [("title", .str "New")])
          = .ok (⟨"docs", .arr ([[("id", .str "a"), ("title", .str "T")],
                   [("id", .str "c"), ("title", .str "U")]].map .obj), .arr (ys'.map .obj),
              .obj [("name", .str "Admin")]⟩, [])
        ∧ List.Forall₂ (PatchedBy "a" [("title", .str "New")]) [[("id", .str "staff-1")]] ys'
        ∧ (hasField [("title", JSVal.str "New")] "id" = false →
            ys'.map (fun fs => getField fs "id")
              = [[("id", JSVal.str "staff-1")]].map (fun fs => getField fs "id")))) :=
  ⟨by decide, update_merges_patch "docs" _ _ _ "a" _ (by decide)⟩

/-- C4, counterexample. Two calls of `createArticle` at the same reading of the clock:
after the first the ids of the collection are pairwise distinct, and the second
gives its article the id the first one gave, so they no longer are. -/
theorem createArticle_same_clock_collides :
    ∃ st1 st2,
      createArticle (login initialState "admin" "password").1 1700000000000 "2023-11-14"
          (.obj [("title", .str "First")]) = .ok (st1, [])
      ∧ (collectionIds st1.articles).Nodup
      ∧ createArticle st1 1700000000000 "2023-11-14" (.obj [("title", .str "Second")])
          = .ok (st2, [])
      ∧ collectionIds st2.articles
          = [.str "art-1700000000000", .str "art-1700000000000", .str "breach-2025-01",
             .str "crime-2024-07", .str "gang-101"]
      ∧ ¬(collectionIds st2.articles).Nodup :=
  ⟨_, _, rfl, by decide, rfl, by decide, by decide⟩

/-- C4, amended. Logged in, for every article collection whose ids are pairwise
distinct and every sequence of pairwise distinct readings of the clock none of
which gives an id `art-<t>` that the collection already has, the successive calls of
`createArticle` at these readings put the ids `art-<t>` in front of the ids of the
collection, latest first, and the ids stay pairwise distinct; a single call is the
sequence of one reading. The same holds of `createStaff`, the staff collection and the
ids `staff-<t>`. -/
theorem creates_keep_ids_distinct (route : String) (xs ys : List JSVal) (user : JSVal)
    (today : String) (pf : List (String × JSVal)) (nows : List Int)
    (h : user.truthy = true) (hn : nows.Nodup) :
    ((collectionIds (.arr xs)).Nodup →
      (∀ t ∈ nows, JSVal.str ("art-" ++ numberToString t) ∉ collectionIds (.arr xs)) →
      ∃ st', runAll (fun st now => createArticle st now today (.obj pf))
            ⟨route, .arr xs, .arr ys, user⟩ nows = .ok st'
        ∧ collectionIds st'.articles
            = nows.reverse.map (fun t => JSVal.str ("art-" ++ numberToString t))
              ++ collectionIds (.arr xs)
        ∧ (collectionIds st'.articles).Nodup)
    ∧ ((collectionIds (.arr ys)).Nodup →
      (∀ t ∈ nows, JSVal.str ("staff-" ++ numberToString t) ∉ collectionIds (.arr ys)) →
      ∃ st', runAll (fun st now => createStaff st now (.obj pf))
            ⟨route, .arr xs, .arr ys, user⟩ nows = .ok st'
        ∧ collectionIds st'.staff
            = nows.reverse.map (fun t => JSVal.str ("staff-" ++ numberToString t))
              ++ collectionIds (.arr ys)
        ∧ (collectionIds st'.staff).Nodup) := by
  constructor
  · intro hz hfresh
    refine runAll_ids _ (idString_injective "art-") _ (fun st => st.articles) ?_ nows
      ⟨route, .arr xs, .arr ys, user⟩ xs rfl h hn hz hfresh
    intro st now zs hc hu
    obtain ⟨r, a, s, u⟩ := st
    simp only at hc hu
    subst hc
    exact ⟨_, _, createArticle_object r zs s u now today pf hu, rfl, rfl, rfl⟩
  · intro hz hfresh
    refine runAll_ids _ (idString_injective "staff-") _ (fun st => st.staff) ?_ nows
      ⟨route, .arr xs, .arr ys, user⟩ ys rfl h hn hz hfresh
    intro st now zs hc hu
    obtain ⟨r, a, s, u⟩ := st
    simp only at hc hu
    subst hc
    exact ⟨_, _, createStaff_object r a zs u now pf hu, rfl, rfl, rfl⟩

/-- C4, amended: an instance. Two calls of `createArticle` at the readings `1700000000000`
and `1700000000001` on the seed. -/
theorem creates_keep_ids_distinct_witness :
    (JSVal.obj [("name", .str "Admin")]).truthy = true
    ∧ [(1700000000000 : Int), 1700000000001].Nodup
    ∧ (collectionIds (.arr SAMPLE_ARTICLES)).Nodup
    ∧ (∀ t ∈ [(1700000000000 : Int), 1700000000001],
        JSVal.str ("art-" ++ numberToString t) ∉ collectionIds (.arr SAMPLE_ARTICLES))
    ∧ ∃ st', runAll (fun st now => createArticle st now "2023-11-14" (.obj []))
            ⟨"docs", .arr SAMPLE_ARTICLES, .arr SAMPLE_STAFF, .obj [("name", .str "Admin")]⟩
            [1700000000000, 1700000000001] = .ok st'
        ∧ collectionIds st'.articles
            = [(1700000000000 : Int), 1700000000001].reverse.map
                (fun t => JSVal.str ("art-" ++ numberToString t))
              ++ collectionIds (.arr SAMPLE_ARTICLES)
        ∧ (collectionIds st'.articles).Nodup :=
  ⟨by decide, by decide, by decide, by decide,
   (creates_keep_ids_distinct "docs" SAMPLE_ARTICLES SAMPLE_STAFF _ "2023-11-14" []
      [1700000000000, 1700000000001] (by decide) (by decide)).1 (by decide) (by decide)⟩

/-- C5. Logged in, `createArticle(patch)` on any article collection and any patch
object puts the new article in front of the old collection, which is kept as it
was and in the same order, so the length grows by one; the new article has the id
`art-<now>`, the fields of the patch or their defaults, and the route becomes
`article:<new id>`. A call without argument is the call with `{}`. -/
theorem createArticle_prepends (route : String) (xs : List JSVal) (staff user : JSVal)
    (now : Int) (today : String) (pf : List (String × JSVal)) (h : user.truthy = true) :
    createArticle ⟨route, .arr xs, staff, user⟩ now today (.obj pf)
      = .ok (⟨"article:" ++ ("art-" ++ numberToString now),
          .arr (.obj [("id", .str ("art-" ++ numberToString now)),
                      ("title", (getField pf "title").or (.str "Untitled Article")),
                      ("category", (getField pf "category").or (.str "Security Breaches")),
                      ("excerpt", (getField pf "excerpt").or (.str "")),
                      ("content", (getField pf "content").or (.str "")),
                      ("date", .str today)] :: xs),
          staff, user⟩, [])
    ∧ createArticle ⟨route, .arr xs, staff, user⟩ now today .undefined
      = createArticle ⟨route, .arr xs, staff, user⟩ now today (.obj []) := by
  exact ⟨createArticle_object route xs staff user now today pf h, rfl⟩

/-- C5, the scenario of the specification. From the seed of three articles, after
`login("admin", "password")`, `createArticle({title: "X"})` gives four articles, the
new one (title `X`) first and the three of the seed after it. -/
theorem createArticle_prepends_witness :
    (JSVal.obj [("name", .str "Admin")]).truthy = true
    ∧ (createArticle (login initialState "admin" "password").1 1700000000000 "2023-11-14"
          (.obj [("title", .str "X")])
        = .ok (⟨"article:art-1700000000000",
            .arr (.obj [("id", .str "art-1700000000000"),
                        ("title", .str "X"),
                        ("category", .str "Security Breaches"),
                        ("excerpt", .str ""),
                        ("content", .str ""),
                        ("date", .str "2023-11-14")] :: SAMPLE_ARTICLES),
            .arr SAMPLE_STAFF, .obj [("name", .str "Admin")]⟩, [])
      ∧ createArticle (login initialState "admin" "password").1 1700000000000 "2023-11-14"
          .undefined
        = createArticle (login initialState "admin" "password").1 1700000000000 "2023-11-14"
          (.obj []))
    ∧ (JSVal.obj [("id", .str "art-1700000000000")] :: SAMPLE_ARTICLES).length = 4 :=
  ⟨by decide,
   createArticle_prepends "home" SAMPLE_ARTICLES (.arr SAMPLE_STAFF) _ 1700000000000
     "2023-11-14" [("title", .str "X")] (by decide),
   by decide⟩

/-- C6. Logged in, when no record of the collection has the id `id`,
`updateArticle(id, patch)` (for every patch) returns the state unchanged and a
confirmed `removeArticle(id)` returns the same collection (it only moves the route
to `docs`); neither throws. The same holds of `updateStaff` and `removeStaff` on the
staff collection. -/
theorem absent_id_is_noop (route : String) (xs ys : List (List (String × JSVal)))
    (user : JSVal) (id : String) (patch : JSVal) (h : user.truthy = true) :
    ((∀ fs ∈ xs, getField fs "id" ≠ .str id) →
        updateArticle ⟨route, .arr (xs.map .obj), .arr (ys.map .obj), user⟩ id patch
          = .ok (⟨route, .arr (xs.map .obj), .arr (ys.map .obj), user⟩, [])
        ∧ removeArticle ⟨route, .arr (xs.map .obj), .arr (ys.map .obj), user⟩ true id
          = .ok (⟨"docs", .arr (xs.map .obj), .arr (ys.map .obj), user⟩, []))
    ∧ ((∀ fs ∈ ys, getField fs "id" ≠ .str id) →
        updateStaff ⟨route, .arr (xs.map .obj), .arr (ys.map .obj), user⟩ id patch
          = .ok (⟨route, .arr (xs.map .obj), .arr (ys.map .obj), user⟩, [])
        ∧ removeStaff ⟨route, .arr (xs.map .obj), .arr (ys.map .obj), user⟩ true id
          = .ok (⟨"staff", .arr (xs.map .obj), .arr (ys.map .obj), user⟩, [])) := by
  refine ⟨fun hx => ⟨?_, ?_⟩, fun hy => ⟨?_, ?_⟩⟩
  · rw [updateArticle_objects _ _ _ _ _ _ h, patchRecord_absent id patch xs hx]
  · rw [removeArticle_objects _ _ _ _ _ h, filter_absent id xs hx]
  · rw [updateStaff_objects _ _ _ _ _ _ h, patchRecord_absent id patch ys hy]
  · rw [removeStaff_objects _ _ _ _ _ h, filter_absent id ys hy]

/-- C6, an instance: the id `nope` on the collections `[{id: "a"}]` and
`[{id: "staff-1"}]`. -/
theorem absent_id_is_noop_witness :
    (JSVal.obj [("name", .str "Admin")]).truthy = true
    ∧ (updateArticle ⟨"docs", .arr [.obj [("id", .str "a")]], .arr [.obj [("id", .str "staff-1")]],
          .obj [("name", .str "Admin")]⟩ "nope" (.obj [("title", .str "T")])
        = .ok (⟨"docs", .arr [.obj [("id", .str "a")]], .arr [.obj [("id", .str "staff-1")]],
          .obj [("name", .str "Admin")]⟩, [])
      ∧ removeArticle ⟨"docs", .arr [.obj [("id", .str "a")]],
          .arr [.obj [("id", .str "staff-1")]], .obj [("name", .str "Admin")]⟩ true "nope"
        = .ok (⟨"docs", .arr [.obj [("id", .str "a")]], .arr [.obj [("id", .str "staff-1")]],
          .obj [("name", .str "Admin")]⟩, [])) :=
  ⟨by decide,
   (absent_id_is_noop "docs" [[("id", .str "a")]] [[("id", .str "staff-1")]] _ "nope"
      (.obj [("title", .str "T")]) (by decide)).1 (by decide)⟩

/-- C8. For every article collection `A` and staff collection `S`, the empty ones
included, every state that is exported, every timestamp and every state that
imports: `importSite` on the text that `exportSite` writes for `A` and `S` sets the article
collection to `A` and the staff collection to `S`, keeps the route and the user, and
announces success. The collections are collections of JSON values, which is what
the store holds (`store_holds_JSON`): the seed, what `JSON.parse` returns and what the
operations make of JSON values. -/
theorem import_export_roundtrip (A S : List JSVal) (route0 : String) (user0 : JSVal)
    (exportedAt : String) (st : State) (hA : (JSVal.arr A).isJSON = true)
    (hS : (JSVal.arr S).isJSON = true) :
    importSite st (exportSite ⟨route0, .arr A, .arr S, user0⟩ exportedAt).2
      = (⟨st.route, .arr A, .arr S, st.user⟩, ["Import successful."]) := by
  have hj : (JSVal.obj [("articles", .arr A), ("staff", .arr S),
      ("exportedAt", .str exportedAt)]).isJSON = true := by
    simp only [JSVal.isJSON] at hA hS
    simp only [JSVal.isJSON, fieldsJSON, hA, hS, Bool.and_true, Bool.true_and,
      decide_eq_true_eq, List.map_cons, List.map_nil]
    decide
  obtain ⟨text, ht, hp⟩ := parse_stringifyPretty _ hj 2
  simp only [exportSite, downloadJSON, ht]
  rw [importSite_of_object st text _ hp]
  simp [getField, JSVal.truthy]

/-- C8, an instance: no article and one staff profile. -/
theorem import_export_roundtrip_witness :
    (JSVal.arr []).isJSON = true
    ∧ (JSVal.arr [.obj [("id", .str "staff-1"), ("name", .str "Raven \"R\" Steele")]]).isJSON = true
    ∧ importSite initialState
        (exportSite ⟨"docs", .arr [],
          .arr [.obj [("id", .str "staff-1"), ("name", .str "Raven \"R\" Steele")]], .null⟩
          "2025-01-10T08:00:00.000Z").2
      = (⟨"home", .arr [],
          .arr [.obj [("id", .str "staff-1"), ("name", .str "Raven \"R\" Steele")]], .null⟩,
          ["Import successful."]) :=
  ⟨by decide, by decide,
   import_export_roundtrip [] [.obj [("id", .str "staff-1"), ("name", .str "Raven \"R\" Steele")]]
     "docs" .null "2025-01-10T08:00:00.000Z" initialState (by decide) (by decide)⟩

/-- C10. With nobody logged in (`user` is `null`), `importSite` on the file
`{"articles": [], "staff": []}` replaces the three articles and the two staff profiles
of the seed by empty collections and announces success: it has no session check. -/
theorem importSite_anonymous_replaces :
    importSite ⟨"docs", .arr SAMPLE_ARTICLES, .arr SAMPLE_STAFF, .null⟩
        "\x7b\"articles\":[],\"staff\":[]\x7d"
      = (⟨"docs", .arr [], .arr [], .null⟩, ["Import successful."]) := by
  decide

end CrimeNetwork
